import Mathlib

/-!
Shallow embedding of the influence-graph services of the repository
(`backend/app/services/graph/*.py` and the `influences` API route), together
with proofs and refutations of the specification claims about them.

Modelling conventions:
* The Neo4j property graph is a `Graph` record: lists of item nodes, creator
  nodes, `CREATED_BY` links, `INFLUENCES` edges and category nodes, in
  insertion order.  `CREATE` appends to the corresponding list.
* Each Cypher query is translated clause by clause; a `MATCH` on a label and
  id becomes a lookup in the corresponding list, and a write query of the
  shape `MATCH … WHERE … CREATE/SET/DELETE` evaluates its `WHERE` filter
  against the state at the start of the query (Neo4j's snapshot semantics)
  and then applies all row updates.
* Python / Cypher floats (confidence scores, similarity scores, the 0.6
  token-overlap threshold) are idealized as exact fractions; comparisons with
  the constant thresholds are expressed by cross-multiplication over `Nat`.
* The random `uuid4().hex[:8]` id suffix is determinized: the model appends a
  run of `'f'` characters long enough to make the generated id fresh, which
  captures exactly the property the code relies on (no id collision).
* Python `str.lower()` / Cypher `toLower` are modelled on ASCII letters,
  which covers every string the services compare.
-/

/-- An exact fraction `num / den`, standing in for a Python float.
Similarity scores and confidence values are carried, never arithmetically
mixed, so the raw numerator/denominator pair is an adequate representation. -/
structure Frac where
  num : Nat
  den : Nat
deriving DecidableEq

/-- ASCII lowercasing of one character (model of `str.lower` / `toLower`). -/
def asciiLower (c : Char) : Char :=
  if 'A' ≤ c ∧ c ≤ 'Z' then Char.ofNat (c.toNat + 32) else c

/-- Lowercase a string (model of Python `str.lower()` and Cypher `toLower`). -/
def strLower (s : String) : String :=
  String.mk (s.toList.map asciiLower)

/-- Python `\s` / `str.strip()` whitespace. -/
def isSpaceChar (c : Char) : Prop :=
  c = ' ' ∨ c = '\t' ∨ c = '\n' ∨ c = '\r'

instance (c : Char) : Decidable (isSpaceChar c) := by
  unfold isSpaceChar; infer_instance

/-- ASCII `\w` word characters (`[a-zA-Z0-9_]`), as used by
`re.sub(r"[^\w\s]", " ", …)` in `_normalize_text`. -/
def isWordChar (c : Char) : Prop :=
  ('a' ≤ c ∧ c ≤ 'z') ∨ ('A' ≤ c ∧ c ≤ 'Z') ∨ ('0' ≤ c ∧ c ≤ '9') ∨ c = '_'

instance (c : Char) : Decidable (isWordChar c) := by
  unfold isWordChar; infer_instance

/-- Split a character list at every character satisfying `p`, keeping empty
segments (the behaviour of Cypher `split` and the skeleton of `re.split`). -/
def splitChars (p : Char → Bool) : List Char → List (List Char)
  | [] => [[]]
  | c :: t =>
    match splitChars p t with
    | [] => [[]]
    | w :: ws => if p c then [] :: w :: ws else (c :: w) :: ws

/-- Cypher `split(s, ' ')`. -/
def splitOnSpaceStr (s : String) : List String :=
  (splitChars (fun c => c = ' ') s.toList).map String.mk

/-- Join words with single spaces. -/
def joinSpace : List (List Char) → List Char
  | [] => []
  | [w] => w
  | w :: ws => w ++ ' ' :: joinSpace ws

/-- Python `str.strip()`. -/
def pyStrip (s : String) : String :=
  String.mk (((s.toList.dropWhile fun c => decide (isSpaceChar c)).reverse.dropWhile
    fun c => decide (isSpaceChar c)).reverse)

/-- Model of `ItemService._normalize_text`: lowercase, replace `'`, `&`, `-`, `_` by
spaces, replace remaining punctuation (`[^\w\s]`) by spaces, collapse runs of
whitespace to single spaces and strip the ends. -/
def normalizeText (s : String) : String :=
  if s = "" then ""
  else
    let lowered := s.toList.map asciiLower
    let dePunct1 := lowered.map fun c =>
      if c = '\'' ∨ c = '&' ∨ c = '-' ∨ c = '_' then ' ' else c
    let dePunct2 := dePunct1.map fun c =>
      if isWordChar c ∨ isSpaceChar c then c else ' '
    let words := (splitChars (fun c => decide (isSpaceChar c)) dePunct2).filter
      fun w => ¬ w.isEmpty
    String.mk (joinSpace words)

/-- Substring test: `needle` occurs inside `hay` (Cypher `CONTAINS`,
Python `in` on strings). -/
def strContains (hay needle : String) : Prop :=
  needle.toList <:+: hay.toList

instance (hay needle : String) : Decidable (strContains hay needle) := by
  unfold strContains; infer_instance

/-! ## Data model -/

/-- An `Item` node (`app/models/item.py`). -/
structure Item where
  id : String
  name : String
  description : Option String := none
  year : Option Int := none
  auto_detected_type : Option String := none
  confidence_score : Option Frac := none
  verification_status : String := "ai_generated"
deriving DecidableEq

/-- A `Creator` node. -/
structure CreatorNode where
  id : String
  name : String
  type : String
deriving DecidableEq

/-- A `CREATED_BY` relationship `Item → Creator` with its `role`. -/
structure CreatedByLink where
  itemId : String
  creatorId : String
  role : String
deriving DecidableEq

/-- The attribute set stored on an `INFLUENCES` relationship
(`create_influence_relationship`). -/
structure InfluenceAttrs where
  confidence : Frac
  influence_type : String
  explanation : String
  category : String
  scope : String := "macro"
  source : Option String := none
  year_of_influence : Option Int := none
  clusters : Option (List String) := none
deriving DecidableEq

/-- A directed `INFLUENCES` edge between two item ids. -/
structure Edge where
  src : String
  dst : String
  attrs : InfluenceAttrs
deriving DecidableEq

/-- A `Category` node with its usage counter (`ensure_category_exists`). -/
structure CategoryNode where
  name : String
  usage_count : Nat
deriving DecidableEq

/-- The whole Neo4j store.  Lists are in node/relationship creation order. -/
structure Graph where
  items : List Item
  creators : List CreatorNode
  createdBy : List CreatedByLink
  edges : List Edge
  categories : List CategoryNode
deriving DecidableEq

/-- The pattern `MATCH (i:Item {id: x})` binds a row. -/
def itemIn (g : Graph) (x : String) : Prop :=
  ∃ i ∈ g.items, i.id = x

instance (g : Graph) (x : String) : Decidable (itemIn g x) := by
  unfold itemIn; infer_instance

/-- The pattern `MATCH (c:Creator {id: x})` binds a row. -/
def creatorIn (g : Graph) (x : String) : Prop :=
  ∃ c ∈ g.creators, c.id = x

instance (g : Graph) (x : String) : Decidable (creatorIn g x) := by
  unfold creatorIn; infer_instance

/-- There is an `INFLUENCES` edge `a → b` in the edge list
(`EXISTS((a)-[:INFLUENCES]->(b))`). -/
def hasEdge (l : List Edge) (a b : String) : Prop :=
  ∃ e ∈ l, e.src = a ∧ e.dst = b

instance (l : List Edge) (a b : String) : Decidable (hasEdge l a b) := by
  unfold hasEdge; infer_instance

/-- Model of `ItemService.get_item_by_id`: `MATCH (i:Item {id:$item_id}) RETURN i`,
`result.single()` taking the first matching node. -/
def getItemById (g : Graph) (x : String) : Option Item :=
  g.items.find? fun i => i.id == x

/-! ## Similarity matching (`ItemService.find_similar_items`) -/

/-- The stop-word list of the fuzzy Cypher query in
`ItemService.find_similar_items`. -/
def stopWords : List String :=
  ["the", "and", "of", "in", "on", "at", "to", "for", "with", "by", "a", "an",
   "as", "is", "it", "that", "this", "was", "will", "be", "have", "had", "has",
   "do", "does", "did", "or", "but", "not", "so", "if", "then", "else", "when",
   "where", "why", "how", "all", "any", "both", "each", "few", "more", "most",
   "other", "some", "such", "no", "nor", "only", "own", "same", "than", "too",
   "very", "can", "may", "must", "shall", "should", "would", "could"]

/-- Model of `[word IN ws WHERE size(word) >= 3 AND NOT word IN stopWords]`. -/
def filterWords (ws : List String) : List String :=
  ws.filter fun w => decide (3 ≤ w.length ∧ w ∉ stopWords)

/-- The item-side word list: `split(toLower(i.name), ' ')` filtered. -/
def itemWords (itemName : String) : List String :=
  filterWords (splitOnSpaceStr (strLower itemName))

/-- The creator names linked to an item:
`OPTIONAL MATCH (i)-[:CREATED_BY]->(c:Creator) … collect(c.name)`. -/
def creatorsOf (g : Graph) (itemId : String) : List String :=
  g.createdBy.filterMap fun l =>
    if l.itemId = itemId then
      (g.creators.find? fun c => c.id == l.creatorId).map (fun c => c.name)
    else none

/-- Model of `MATCH (:Item)-[:INFLUENCES]->(i:Item {id:$id}) RETURN count(*)`. -/
def incomingInfluenceCount (g : Graph) (itemId : String) : Nat :=
  if itemIn g itemId then
    g.edges.countP fun e => decide (e.dst = itemId ∧ itemIn g e.src)
  else 0

/-- One row of the fuzzy query: the item together with its `matches` and
`total_search_words` aggregates. -/
structure FuzzyRow where
  item : Item
  hits : Nat
  total : Nat
deriving DecidableEq

/-- Model of `size([word IN filtered_search_words WHERE word IN item_words])`. -/
def countMatches (searchWords itemWs : List String) : Nat :=
  searchWords.countP fun w => decide (w ∈ itemWs)

/-- The `WHERE` clause of the fuzzy query in `ItemService.find_similar_items`.
`0.6` is the exact rational threshold (` matches >= total * 0.6 ` becomes
`10 * matches ≥ 6 * total`). -/
def cypherInclude (g : Graph) (i : Item) (normalizedSearch creatorParam : String)
    (hits total : Nat) : Prop :=
  (0 < hits ∧ 6 * total ≤ 10 * hits)
  ∨ strLower i.name = strLower normalizedSearch
  ∨ (strContains (strLower i.name) (strLower normalizedSearch)
      ∧ 4 ≤ normalizedSearch.length)
  ∨ (strContains (strLower normalizedSearch) (strLower i.name)
      ∧ 4 ≤ i.name.length)
  ∨ (creatorParam ≠ "" ∧ ∃ c ∈ creatorsOf g i.id,
      strContains (strLower c) (strLower creatorParam))

instance (g : Graph) (i : Item) (ns cp : String) (m t : Nat) :
    Decidable (cypherInclude g i ns cp m t) := by
  unfold cypherInclude; infer_instance

/-- The Python score computation of `ItemService.find_similar_items`
(lines 168–193): exact normalized equality scores 100; the existing item's
normalized name being a substring of the candidate's scores 90 (guarded on
the candidate's length); the reverse containment scores 85 (guarded on the
item's length); a token overlap of at least 60 % scores `min 80 overlap`.
The Python float `matches / total * 100` is idealized as the exact fraction
`100 * hits / total`. -/
def pyScore (itemNorm searchNorm : String) (hits total : Nat) : Frac :=
  if itemNorm = searchNorm then ⟨100, 1⟩
  else if strContains searchNorm itemNorm ∧ 4 ≤ searchNorm.length then ⟨90, 1⟩
  else if strContains itemNorm searchNorm ∧ 4 ≤ itemNorm.length then ⟨85, 1⟩
  else if 0 < total ∧ 60 * total ≤ 100 * hits then
    (if 80 * total ≤ 100 * hits then ⟨80, 1⟩ else ⟨100 * hits, total⟩)
  else ⟨0, 1⟩

/-- A result entry of `find_similar_items` (the Python dict built per row). -/
structure SimilarEntry where
  id : String
  name : String
  auto_detected_type : Option String
  year : Option Int
  description : Option String
  confidence_score : Option Frac
  verification_status : String
  creators : List String
  existing_influences_count : Nat
  similarity_score : Frac
deriving DecidableEq

/-- Insert a row into a list that is already ordered, placing it before the
first element it should precede (`le x y` = `x` may come before `y`).  Used
to model `ORDER BY … LIMIT` with a stable determinization of Neo4j's
unspecified tie order. -/
def insertOrdered (le : FuzzyRow → FuzzyRow → Bool) (x : FuzzyRow) :
    List FuzzyRow → List FuzzyRow
  | [] => [x]
  | y :: t => if le x y then x :: y :: t else y :: insertOrdered le x t

/-- Stable insertion sort for query rows. -/
def sortRows (le : FuzzyRow → FuzzyRow → Bool) : List FuzzyRow → List FuzzyRow
  | [] => []
  | x :: t => insertOrdered le x (sortRows le t)

/-- Model of `ORDER BY matches DESC, total_search_words ASC` (ties keep store order —
a determinization of Neo4j's unspecified tie ordering). -/
def fuzzyOrder (x y : FuzzyRow) : Bool :=
  decide (y.hits < x.hits ∨ (x.hits = y.hits ∧ x.total ≤ y.total))

/-- Build the result dict for one returned row (`ItemService.find_similar_items`
lines 160–213). -/
def mkSimilarEntry (g : Graph) (normalizedSearch : String) (r : FuzzyRow) :
    SimilarEntry :=
  { id := r.item.id
    name := r.item.name
    auto_detected_type := r.item.auto_detected_type
    year := r.item.year
    description := r.item.description
    confidence_score := r.item.confidence_score
    verification_status := r.item.verification_status
    creators := (creatorsOf g r.item.id).filter fun c => c ≠ ""
    existing_influences_count := incomingInfluenceCount g r.item.id
    similarity_score :=
      pyScore (normalizeText r.item.name) normalizedSearch r.hits r.total }

/-- Model of `ItemService.find_similar_items(name, creator_name)`: run the fuzzy Cypher
query (filter + `ORDER BY matches DESC, total ASC` + `LIMIT 5`), then score
each returned row in Python. -/
def itemFindSimilarItems (g : Graph) (name : String)
    (creatorName : Option String) : List SimilarEntry :=
  let normalizedSearch := normalizeText name
  let creatorParam := creatorName.getD ""
  let searchWords := filterWords (splitOnSpaceStr normalizedSearch)
  let rows := g.items.filterMap fun i =>
    let m := countMatches searchWords (itemWords i.name)
    let t := searchWords.length
    if cypherInclude g i normalizedSearch creatorParam m t then
      some (⟨i, m, t⟩ : FuzzyRow)
    else none
  ((sortRows fuzzyOrder rows).take 5).map (mkSimilarEntry g normalizedSearch)

/-! ## Similarity matching (`GraphService.find_similar_items`) -/

/-- A result entry of `GraphService.find_similar_items` (integer `name_score`
computed inside Cypher). -/
structure GraphSimilarEntry where
  id : String
  name : String
  auto_detected_type : Option String
  year : Option Int
  description : Option String
  confidence_score : Option Frac
  verification_status : String
  creators : List String
  existing_influences_count : Nat
  similarity_score : Nat
deriving DecidableEq

/-- The `CASE` score of `GraphService.find_similar_items` (lines 677–683):
note the `ELSE 50` catch-all branch. -/
def graphNameScore (itemName searchName : String) : Nat :=
  if strLower itemName = strLower searchName then 100
  else if strContains (strLower itemName) (strLower searchName) then 80
  else if strContains (strLower searchName) (strLower itemName) then 70
  else 50

/-- Sorted insertion for the graph-service rows (score descending, stable). -/
def insertScored (x : Item × Nat) : List (Item × Nat) → List (Item × Nat)
  | [] => [x]
  | y :: t => if y.2 ≤ x.2 then x :: y :: t else y :: insertScored x t

/-- Stable sort by `name_score DESC` for the graph-service rows. -/
def sortScored : List (Item × Nat) → List (Item × Nat)
  | [] => []
  | x :: t => insertScored x (sortScored t)

/-- Model of `GraphService.find_similar_items(name, creator_name)` (lines 669–722):
every item passes the `WHERE name_score >= 50 OR …` filter because the `CASE`
has an `ELSE 50` branch; rows are ordered by `name_score` descending and
capped to 5. -/
def graphFindSimilarItems (g : Graph) (name : String)
    (creatorName : Option String) : List GraphSimilarEntry :=
  let creatorParam := creatorName.getD ""
  let rows := g.items.filterMap fun (i : Item) =>
    let score := graphNameScore i.name name
    if 50 ≤ score ∨ ∃ c ∈ creatorsOf g i.id,
        strContains (strLower c) (strLower creatorParam) then
      some (i, score)
    else none
  ((sortScored rows).take 5).map fun r =>
    { id := r.1.id
      name := r.1.name
      auto_detected_type := r.1.auto_detected_type
      year := r.1.year
      description := r.1.description
      confidence_score := r.1.confidence_score
      verification_status := r.1.verification_status
      creators := (creatorsOf g r.1.id).filter fun c => c ≠ ""
      existing_influences_count := incomingInfluenceCount g r.1.id
      similarity_score := r.2 }

/-! ## Id generation and CRUD primitives -/

/-- The name-cleaning part of `BaseGraphService.generate_id`: lowercase,
spaces to `-`, keep only alphanumerics and `-` (which also drops the `'` and
`"` removed explicitly by the Python code). -/
def cleanIdText (s : String) : String :=
  String.mk (((s.toList.map asciiLower).map fun c => if c = ' ' then '-' else c).filter
    fun c => c.isAlphanum || c == '-')

/-- Length of the longest id currently present in the store. -/
def maxIdLength (g : Graph) : Nat :=
  ((g.items.map fun i => i.id.length) ++ (g.creators.map fun c => c.id.length)).foldr
    max 0

/-- Determinization of the random `uuid4().hex[:8]` suffix of `generate_id`:
a run of hex characters long enough that the resulting id cannot equal any id
already in the store.  Only the collision-freedom of the suffix matters to
the services. -/
def freshSuffix (g : Graph) : String :=
  String.mk (List.replicate (maxIdLength g + 1) 'f')

/-- Model of `BaseGraphService.generate_id(name, item_type)`. -/
def generateId (g : Graph) (name : String) (itemType : Option String) : String :=
  match itemType with
  | some t => cleanIdText name ++ "-" ++ cleanIdText t ++ "-" ++ freshSuffix g
  | none => cleanIdText name ++ "-" ++ freshSuffix g

/-- Model of `GraphService.create_item`: generate an id and `CREATE` an `Item` node
with `verification_status = "ai_generated"`.  Returns the new store and the
created item. -/
def createItem (g : Graph) (name : String) (description : Option String)
    (year : Option Int) (autoType : Option String) (conf : Option Frac) :
    Graph × Item :=
  let it : Item :=
    { id := generateId g name autoType
      name := name
      description := description
      year := year
      auto_detected_type := autoType
      confidence_score := conf
      verification_status := "ai_generated" }
  ({ g with items := g.items ++ [it] }, it)

/-- Model of `CreatorService.create_creator` / `GraphService.create_creator`: reuse the
first creator with the exact same name, otherwise `CREATE` a new one. -/
def createCreator (g : Graph) (name : String) (creatorType : String) :
    Graph × CreatorNode :=
  match g.creators.find? fun c => c.name == name with
  | some c => (g, c)
  | none =>
    let c : CreatorNode :=
      { id := generateId g name (some creatorType), name := name,
        type := creatorType }
    ({ g with creators := g.creators ++ [c] }, c)

/-- Model of `link_creator_to_item`: `MATCH` both endpoints, then
`MERGE (i)-[:CREATED_BY {role}]->(c)` (no-op when the identical link already
exists, no-op when either endpoint is missing). -/
def linkCreatorToItem (g : Graph) (itemId creatorId role : String) : Graph :=
  if itemIn g itemId ∧ creatorIn g creatorId then
    let l : CreatedByLink := { itemId := itemId, creatorId := creatorId, role := role }
    if l ∈ g.createdBy then g
    else { g with createdBy := g.createdBy ++ [l] }
  else g

/-- Model of `ensure_category_exists`: `MERGE (cat:Category {name}) ON CREATE SET
usage_count = 1 ON MATCH SET usage_count = usage_count + 1`. -/
def ensureCategoryExists (g : Graph) (name : String) : Graph :=
  if ∃ c ∈ g.categories, c.name = name then
    { g with categories := g.categories.map fun c =>
        if c.name = name then { c with usage_count := c.usage_count + 1 } else c }
  else
    { g with categories := g.categories ++ [⟨name, 1⟩] }

/-- Model of `create_influence_relationship` (`InfluenceService` lines 13–61 and the
identical `GraphService` copy): `MATCH` both items; if either is absent the
query binds no row and nothing happens; otherwise `MERGE` the `INFLUENCES`
relationship — `SET` overwrites the attributes of every matched edge, and a
fresh edge is created only when none exists for the ordered pair. -/
def createInfluenceRelationship (g : Graph) (fromId toId : String)
    (a : InfluenceAttrs) : Graph :=
  if itemIn g fromId ∧ itemIn g toId then
    if hasEdge g.edges fromId toId then
      { g with edges := g.edges.map fun e =>
          if e.src = fromId ∧ e.dst = toId then { e with attrs := a } else e }
    else { g with edges := g.edges ++ [⟨fromId, toId, a⟩] }
  else g

/-- The updatable fields of an item; `none` models both an absent key and an
explicit `None` value in the `update_data` dict (both are skipped by
`ItemService.update_item`' s `if value is not None` loop). -/
structure UpdateData where
  name : Option String := none
  description : Option String := none
  year : Option Int := none
  auto_detected_type : Option String := none
  confidence_score : Option Frac := none
  verification_status : Option String := none
deriving DecidableEq

/-- Some field of the update carries a non-`None` value, i.e. the generated
`SET` clause is non-empty. -/
def hasUpdateField (u : UpdateData) : Prop :=
  u.name.isSome ∨ u.description.isSome ∨ u.year.isSome ∨
    u.auto_detected_type.isSome ∨ u.confidence_score.isSome ∨
    u.verification_status.isSome

instance (u : UpdateData) : Decidable (hasUpdateField u) := by
  unfold hasUpdateField; infer_instance

/-- Apply the generated `SET` clause to one item node: exactly the fields
with a non-`None` value are overwritten. -/
def applyUpdate (it : Item) (u : UpdateData) : Item :=
  { it with
    name := match u.name with | some v => v | none => it.name
    description := match u.description with | some v => some v | none => it.description
    year := match u.year with | some v => some v | none => it.year
    auto_detected_type :=
      match u.auto_detected_type with
      | some v => some v
      | none => it.auto_detected_type
    confidence_score :=
      match u.confidence_score with
      | some v => some v
      | none => it.confidence_score
    verification_status :=
      match u.verification_status with
      | some v => v
      | none => it.verification_status }

/-- Model of `ItemService.update_item` (lines 233–278): when no field survives the
`is not None` filter, no query is run and the current item is returned;
otherwise `MATCH (i:Item {id}) SET … RETURN i`, returning `None` (and
writing nothing) when the id does not match. -/
def updateItem (g : Graph) (itemId : String) (u : UpdateData) :
    Graph × Option Item :=
  if ¬ hasUpdateField u then (g, getItemById g itemId)
  else
    match getItemById g itemId with
    | none => (g, none)
    | some _ =>
      let g' : Graph :=
        { g with items := g.items.map fun it =>
            if it.id = itemId then applyUpdate it u else it }
      (g', getItemById g' itemId)

/-- Model of `MATCH (i:Item {id}) DETACH DELETE i`: remove the node and every
relationship touching it (`INFLUENCES` in either direction, `CREATED_BY`). -/
def detachDeleteItem (g : Graph) (itemId : String) : Graph :=
  { g with
    items := g.items.filter fun i => i.id != itemId
    edges := g.edges.filter fun e => e.src != itemId && e.dst != itemId
    createdBy := g.createdBy.filter fun l => l.itemId != itemId }

/-- Model of `ItemService.delete_item_completely`. -/
def deleteItemCompletely (g : Graph) (itemId : String) : Graph :=
  detachDeleteItem g itemId

/-! ## `ItemService.merge_items` -/

/-- First `merge_items` query: transfer the incoming influences of `srcId`
onto `tgtId`.  `MATCH (inf:Item)-[r:INFLUENCES]->(source:Item {id:$source_id})
MATCH (target:Item {id:$target_id}) WHERE NOT EXISTS((inf)-[:INFLUENCES]->(target))
CREATE (inf)-[new_r:INFLUENCES]->(target) SET new_r = r DELETE r`.
The `WHERE` filter is evaluated against the state at the start of the query;
create-plus-delete of a row's edge is modelled as re-pointing it. -/
def mergeIncomingStep (g : Graph) (srcId tgtId : String) (e : Edge) : Edge :=
  if e.dst = srcId ∧ itemIn g e.src ∧ ¬ hasEdge g.edges e.src tgtId then
    { e with dst := tgtId }
  else e

def transferIncoming (g : Graph) (srcId tgtId : String) : Graph :=
  if itemIn g srcId ∧ itemIn g tgtId then
    { g with edges := g.edges.map (mergeIncomingStep g srcId tgtId) }
  else g

/-- Second `merge_items` query, symmetric for the outgoing influences of
`srcId`. -/
def mergeOutgoingStep (g : Graph) (srcId tgtId : String) (e : Edge) : Edge :=
  if e.src = srcId ∧ itemIn g e.dst ∧ ¬ hasEdge g.edges tgtId e.dst then
    { e with src := tgtId }
  else e

def transferOutgoing (g : Graph) (srcId tgtId : String) : Graph :=
  if itemIn g srcId ∧ itemIn g tgtId then
    { g with edges := g.edges.map (mergeOutgoingStep g srcId tgtId) }
  else g

/-- Model of `ItemService.merge_items` (lines 280–319): transfer incoming influences,
then outgoing influences, then `DETACH DELETE` the source item; the target
id is returned unconditionally.  No id validation of any kind is performed. -/
def mergeItems (g : Graph) (sourceItemId targetItemId : String) :
    Graph × String :=
  (detachDeleteItem
      (transferOutgoing (transferIncoming g sourceItemId targetItemId)
        sourceItemId targetItemId)
      sourceItemId,
    targetItemId)

/-- Decidable equality for `Except` results (used to evaluate the service
operations on concrete stores). -/
instance {e a : Type} [DecidableEq e] [DecidableEq a] : DecidableEq (Except e a) :=
  fun x y =>
    match x, y with
    | .error u, .error v =>
      if h : u = v then .isTrue (by rw [h])
      else .isFalse fun hc => h (Except.error.inj hc)
    | .error _, .ok _ => .isFalse fun hc => Except.noConfusion hc
    | .ok _, .error _ => .isFalse fun hc => Except.noConfusion hc
    | .ok u, .ok v =>
      if h : u = v then .isTrue (by rw [h])
      else .isFalse fun hc => h (Except.ok.inj hc)

/-! ## Candidate payloads (`app/models/structured.py`) -/

/-- A candidate influence (`StructuredInfluence`), after pydantic validation
(`name` is a string, stripped; `category`/`explanation` have defaults). -/
structure StructuredInfluence where
  name : String
  type : Option String := none
  creator_name : Option String := none
  creator_type : Option String := none
  year : Option Int := none
  category : String
  scope : String := "macro"
  influence_type : String
  confidence : Frac
  explanation : String
  source : Option String := none
  clusters : Option (List String) := none
deriving DecidableEq

/-- A candidate payload (`StructuredOutput`). -/
structure StructuredOutput where
  main_item : String
  main_item_type : Option String := none
  main_item_creator : Option String := none
  main_item_creator_type : Option String := none
  main_item_year : Option Int := none
  main_item_description : Option String := none
  influences : List StructuredInfluence
  categories : List String := []
deriving DecidableEq

/-- Python truthiness of an optional string (`if x:`). -/
def optTruthy (o : Option String) : Prop :=
  ∃ s, o = some s ∧ s ≠ ""

instance (o : Option String) : Decidable (optTruthy o) := by
  unfold optTruthy
  match o with
  | none => exact isFalse (by simp)
  | some s => exact decidable_of_iff (s ≠ "") (by simp)

/-- Python `x or "person"` for an optional creator type. -/
def defaultPersonType (o : Option String) : String :=
  match o with
  | some t => if t = "" then "person" else t
  | none => "person"

/-- The skip condition shared by `find_comprehensive_conflicts` and
`add_influences_to_existing`: empty after stripping, or a `none`/`null`
sentinel (`influence_name.lower() in ["none", "null", ""]`). -/
def invalidInfluenceName (rawName : String) : Prop :=
  pyStrip rawName = "" ∨ strLower (pyStrip rawName) ∈ (["none", "null"] : List String)

instance (s : String) : Decidable (invalidInfluenceName s) := by
  unfold invalidInfluenceName; infer_instance

/-! ## `GraphService.add_influences_to_existing` -/

/-- Model of `MATCH (i:Item {id})-[:CREATED_BY]->(c:Creator) RETURN count(c)`. -/
def creatorCount (g : Graph) (itemId : String) : Nat :=
  if itemIn g itemId then
    g.createdBy.countP fun l => decide (l.itemId = itemId ∧ creatorIn g l.creatorId)
  else 0

/-- The lowercased names of the items with an `INFLUENCES` edge into
`mainId` (`MATCH (inf:Item)-[r:INFLUENCES]->(main:Item {id:$main_id}) RETURN
toString(inf.name)`, lowered in Python for the duplicate check). -/
def incomingInfluenceNamesLower (g : Graph) (mainId : String) : List String :=
  if itemIn g mainId then
    g.edges.filterMap fun e =>
      if e.dst = mainId then (getItemById g e.src).map fun it => strLower it.name
      else none
  else []

/-- The optional-creator part of one `add_influences_to_existing` loop
iteration (lines 841–857): when the candidate carries a truthy creator name
that is not a `none`/`null` sentinel, create-or-get the creator and link it
to the new influence item as `primary_creator`. -/
def processInfluenceCreator (g : Graph) (newItemId : String)
    (inf : StructuredInfluence) : Graph :=
  match inf.creator_name with
  | some cn0 =>
    if cn0 ≠ "" then
      let cn := pyStrip cn0
      if cn ≠ "" ∧ strLower cn ∉ (["none", "null"] : List String) then
        let cc := createCreator g cn (defaultPersonType inf.creator_type)
        linkCreatorToItem cc.1 newItemId cc.2.id "primary_creator"
      else g
    else g
  | none => g

/-- One iteration of the influence loop of
`GraphService.add_influences_to_existing` (lines 788–885): skip invalid
names, skip case-insensitive duplicates of an existing incoming influence
name, otherwise create the influence item, its optional creator and link,
the `INFLUENCES` edge (no `scope` argument, so the default `"macro"` is
stored) and register the category.  The `f"Unknown Influence {i+1}"` branch
for a `None` name is unreachable after pydantic validation and is omitted. -/
def processInfluence (g : Graph) (existingItem : Item)
    (inf : StructuredInfluence) : Graph :=
  let nm := pyStrip inf.name
  if nm = "" ∨ strLower nm ∈ (["none", "null"] : List String) then g
  else if strLower nm ∈ incomingInfluenceNamesLower g existingItem.id then g
  else
    let created := createItem g nm
      (some ("Influence on " ++ existingItem.name ++ " (merged)"))
      inf.year inf.type (some inf.confidence)
    let g1 := created.1
    let newItem := created.2
    let g2 := processInfluenceCreator g1 newItem.id inf
    let explanationClean :=
      if inf.explanation = "" then "No explanation provided"
      else pyStrip inf.explanation
    let categoryClean :=
      if inf.category = "" then "Uncategorized" else pyStrip inf.category
    let g3 := createInfluenceRelationship g2 newItem.id existingItem.id
      { confidence := inf.confidence
        influence_type := inf.influence_type
        explanation := explanationClean
        category := categoryClean
        scope := "macro"
        source := inf.source
        year_of_influence := inf.year
        clusters := inf.clusters }
    ensureCategoryExists g3 categoryClean

/-- The main-item creator backfill of `add_influences_to_existing`
(lines 768–783): when the payload supplies a truthy creator name and the
item has no linked creator, create-or-get the creator and link it as
`primary_creator`. -/
def backfillCreator (g : Graph) (existingItemId : String)
    (d : StructuredOutput) : Graph :=
  match d.main_item_creator with
  | some mc =>
    if mc ≠ "" then
      if creatorCount g existingItemId = 0 then
        let cc := createCreator g mc (defaultPersonType d.main_item_creator_type)
        linkCreatorToItem cc.1 existingItemId cc.2.id "primary_creator"
      else g
    else g
  | none => g

/-- Model of `GraphService.add_influences_to_existing` (lines 757–893): fail when the
item is missing (`ValueError`), backfill the primary creator when the
payload supplies one and the item has none, then run the influence loop. -/
def addInfluencesToExisting (g : Graph) (existingItemId : String)
    (d : StructuredOutput) : Except String (Graph × String) :=
  match getItemById g existingItemId with
  | none => .error ("Existing item " ++ existingItemId ++ " not found")
  | some existingItem =>
    .ok (d.influences.foldl (fun gacc inf => processInfluence gacc existingItem inf)
      (backfillCreator g existingItemId d), existingItemId)

/-! ## `ConflictService.find_comprehensive_conflicts` -/

/-- One entry of `influence_conflicts`. -/
structure InfluenceConflict where
  influence : StructuredInfluence
  similar_items : List SimilarEntry
  influence_index : Nat
deriving DecidableEq

/-- The conflict report (`find_comprehensive_conflicts` lines 21–54). -/
structure ConflictReport where
  main_item_conflicts : List SimilarEntry
  influence_conflicts : List (Nat × InfluenceConflict)
  total_conflicts : Nat
deriving DecidableEq

/-- The per-influence step of `find_comprehensive_conflicts`: skip empty or
`none`/`null` names, record an entry only when the similarity matcher found
candidates. -/
def conflictStep (g : Graph) (acc : List (Nat × InfluenceConflict) × Nat)
    (p : Nat × StructuredInfluence) : List (Nat × InfluenceConflict) × Nat :=
  let nm := pyStrip p.2.name
  if nm = "" ∨ strLower nm ∈ (["none", "null"] : List String) then acc
  else
    let cs := itemFindSimilarItems g nm p.2.creator_name
    if cs = [] then acc
    else (acc.1 ++ [(p.1, ⟨p.2, cs, p.1⟩)], acc.2 + cs.length)

/-- Model of `ConflictService.find_comprehensive_conflicts`, with the similarity
matcher delegated to `ItemService.find_similar_items` as wired by
`_find_similar_items`. -/
def findComprehensiveConflicts (g : Graph) (d : StructuredOutput) :
    ConflictReport :=
  let mains := itemFindSimilarItems g d.main_item d.main_item_creator
  let r := d.influences.enum.foldl (conflictStep g) ([], 0)
  { main_item_conflicts := mains
    influence_conflicts := r.1
    total_conflicts := mains.length + r.2 }

/-! ## The `/influences/merge` route (`merge_with_existing`) -/

/-- One caller-supplied influence resolution
(`{"resolution": …, "selectedItemId": …}`). -/
structure InfResolution where
  resolution : Option String := none
  selectedItemId : Option String := none
deriving DecidableEq

/-- Model of `influence_resolutions[str(i)]` (indices modelled as naturals). -/
def lookupResolution (rs : List (Nat × InfResolution)) (i : Nat) :
    Option InfResolution :=
  (rs.find? fun p => p.1 == i).map fun p => p.2

/-- The attribute set the route passes to `create_influence_relationship`
(here `scope` and `year_of_influence` are forwarded from the candidate). -/
def routeAttrs (inf : StructuredInfluence) : InfluenceAttrs :=
  { confidence := inf.confidence
    influence_type := inf.influence_type
    explanation := inf.explanation
    category := inf.category
    scope := inf.scope
    source := inf.source
    year_of_influence := inf.year
    clusters := inf.clusters }

/-- The per-candidate step of the comprehensive branch of the
`/influences/merge` route: a `merge` resolution with a truthy
`selectedItemId` immediately writes an `INFLUENCES` edge from the selected
item to the main item (no name validation, no existence check beyond the
silent `MATCH` of `create_influence_relationship`); every other candidate is
queued for `add_influences_to_existing`. -/
def mergeRouteStep (existingItemId : String)
    (resolutions : List (Nat × InfResolution))
    (st : Graph × List StructuredInfluence) (p : Nat × StructuredInfluence) :
    Graph × List StructuredInfluence :=
  match lookupResolution resolutions p.1 with
  | some r =>
    if r.resolution = some "merge" ∧ optTruthy r.selectedItemId then
      match r.selectedItemId with
      | some sel =>
        (createInfluenceRelationship st.1 sel existingItemId (routeAttrs p.2), st.2)
      | none => (st.1, st.2 ++ [p.2])
    else (st.1, st.2 ++ [p.2])
  | none => (st.1, st.2 ++ [p.2])

/-- Model of `merge_with_existing` (`app/api/routes/influences.py` lines 70–152),
comprehensive branch when `influence_resolutions` is non-empty, simple
branch otherwise. -/
def mergeWithExisting (g : Graph) (existingItemId : String)
    (newData : StructuredOutput) (resolutions : List (Nat × InfResolution)) :
    Except String (Graph × String) :=
  if resolutions = [] then addInfluencesToExisting g existingItemId newData
  else
    let st := newData.influences.enum.foldl
      (mergeRouteStep existingItemId resolutions) (g, [])
    if st.2 = [] then .ok (st.1, existingItemId)
    else addInfluencesToExisting st.1 existingItemId
      { newData with influences := st.2 }

/-! ## Reachable stores -/

/-- The store states reachable through the mutation surface of the graph
services (every composite operation — `save_structured_influences`,
`add_influences_to_existing`, the routes — mutates the store only through
these primitives). -/
inductive Reachable : Graph → Prop where
  | empty : Reachable ⟨[], [], [], [], []⟩
  | create_item {g : Graph} (n : String) (d : Option String) (y : Option Int)
      (t : Option String) (c : Option Frac) :
      Reachable g → Reachable (createItem g n d y t c).1
  | create_creator {g : Graph} (n t : String) :
      Reachable g → Reachable (createCreator g n t).1
  | link_creator {g : Graph} (i c r : String) :
      Reachable g → Reachable (linkCreatorToItem g i c r)
  | ensure_category {g : Graph} (n : String) :
      Reachable g → Reachable (ensureCategoryExists g n)
  | create_influence {g : Graph} (a b : String) (at_ : InfluenceAttrs) :
      Reachable g → Reachable (createInfluenceRelationship g a b at_)
  | update_item {g : Graph} (i : String) (u : UpdateData) :
      Reachable g → Reachable (updateItem g i u).1
  | delete_item {g : Graph} (i : String) :
      Reachable g → Reachable (deleteItemCompletely g i)
  | merge_items {g : Graph} (s t : String) :
      Reachable g → Reachable (mergeItems g s t).1

/-! ## Concrete stores and payloads used by witnesses and counterexamples -/

/-- A minimal item node. -/
def mkItem (i n : String) : Item := { id := i, name := n }

/-- A sample influence attribute set with the given confidence numerator. -/
def sampleAttrs (conf : Nat) : InfluenceAttrs :=
  { confidence := ⟨conf, 100⟩, influence_type := "sample",
    explanation := "expl", category := "cat" }

/-- Store containing only "The Matrix Reloaded". -/
def gMatrix : Graph :=
  ⟨[mkItem "the-matrix-reloaded-x" "The Matrix Reloaded"], [], [], [], []⟩

/-- Store containing only "Inception". -/
def gInception : Graph := ⟨[mkItem "inception-x" "Inception"], [], [], [], []⟩

/-- Store containing only "Don't Stop". -/
def gDontStop : Graph := ⟨[mkItem "dont-stop-x" "Don't Stop"], [], [], [], []⟩

/-- Store for the merge witness: items `a`, `b`, `x`, `y` with edges
`x → a`, `a → y` and a pre-existing `x → b`. -/
def gMergeW : Graph :=
  ⟨[mkItem "a" "A", mkItem "b" "B", mkItem "x" "X", mkItem "y" "Y"], [], [],
    [⟨"x", "a", sampleAttrs 90⟩, ⟨"a", "y", sampleAttrs 80⟩,
      ⟨"x", "b", sampleAttrs 70⟩], []⟩

/-- Store for the self-merge counterexample: items `a`, `x`, edge `x → a`. -/
def gSelfMerge : Graph :=
  ⟨[mkItem "a" "A", mkItem "x" "X"], [], [], [⟨"x", "a", sampleAttrs 90⟩], []⟩

/-- Store with a single main item. -/
def gMain : Graph := ⟨[mkItem "main-1" "Main"], [], [], [], []⟩

/-- A well-formed candidate influence named `X`. -/
def infX : StructuredInfluence :=
  { name := "X", category := "cat", influence_type := "sample",
    confidence := ⟨9, 10⟩, explanation := "e" }

/-- Payload carrying `infX`. -/
def payloadX : StructuredOutput := { main_item := "Main", influences := [infX] }

/-- A merge resolution pointing at an id that exists in no store. -/
def resGhost : List (Nat × InfResolution) :=
  [(0, ⟨some "merge", some "ghost"⟩)]

/-- Store with a main item and an existing influence item. -/
def gMainInf : Graph :=
  ⟨[mkItem "main-1" "Main", mkItem "inf-1" "Inf"], [], [], [], []⟩

/-- A candidate influence with the sentinel name `none`. -/
def infNone : StructuredInfluence :=
  { name := "none", category := "cat", influence_type := "sample",
    confidence := ⟨9, 10⟩, explanation := "e" }

/-- Payload carrying only the sentinel-named candidate. -/
def payloadNone : StructuredOutput :=
  { main_item := "Main", influences := [infNone] }

/-- A merge resolution selecting the existing item `inf-1`. -/
def resInf1 : List (Nat × InfResolution) :=
  [(0, ⟨some "merge", some "inf-1"⟩)]

/-- Store with the single item "Stan". -/
def gStan : Graph := ⟨[mkItem "stan-1" "Stan"], [], [], [], []⟩

/-- The "Thank You" candidate influence of the end-to-end scenario. -/
def infThankYou : StructuredInfluence :=
  { name := "Thank You", creator_name := some "Dido",
    category := "Audio Samples", influence_type := "sample",
    confidence := ⟨95, 100⟩, explanation := "sampled" }

/-- Payload adding "Thank You" to "Stan". -/
def payloadStan : StructuredOutput :=
  { main_item := "Stan", main_item_creator := some "Eminem",
    influences := [infThankYou] }

/-- The store after one application of `add_influences_to_existing` to
`gStan`. -/
def gStan1 : Graph :=
  match addInfluencesToExisting gStan "stan-1" payloadStan with
  | .ok p => p.1
  | .error _ => gStan

/-- Reachability chain, step 1: create item "A" in the empty store
(generated id `a-f`). -/
def gR1 : Graph := (createItem ⟨[], [], [], [], []⟩ "A" none none none none).1

/-- Step 2: create item "B" (generated id `b-ffff`). -/
def gR2 : Graph := (createItem gR1 "B" none none none none).1

/-- Step 3: assert the influence `a-f → b-ffff`. -/
def gR3 : Graph := createInfluenceRelationship gR2 "a-f" "b-ffff" (sampleAttrs 50)

/-! ## Invariant-level predicates -/

/-- Two edges relate the same ordered pair of items. -/
def samePair (e f : Edge) : Prop := e.src = f.src ∧ e.dst = f.dst

instance (e f : Edge) : Decidable (samePair e f) := by
  unfold samePair; infer_instance

/-- At most one `INFLUENCES` edge per ordered pair of items (§3 invariant). -/
def UniqueEdges (l : List Edge) : Prop :=
  l.Pairwise fun e f => ¬ samePair e f

instance (l : List Edge) : Decidable (UniqueEdges l) := by
  unfold UniqueEdges; infer_instance

/-- Every edge endpoint references an existing item node. -/
def WFEdges (g : Graph) : Prop :=
  ∀ e ∈ g.edges, itemIn g e.src ∧ itemIn g e.dst

instance (g : Graph) : Decidable (WFEdges g) := by
  unfold WFEdges; infer_instance

/-- An edge touches the item `x`. -/
def touches (x : String) (e : Edge) : Prop := e.src = x ∨ e.dst = x

instance (x : String) (e : Edge) : Decidable (touches x e) := by
  unfold touches; infer_instance

/-- Endpoint renaming performed by a merge: `a` becomes `b`. -/
def mapEnd (a b x : String) : String := if x = a then b else x

/-- Store-level monotonicity produced by the append-only mutation steps of
`add_influences_to_existing`: successful id lookups, edge-pair existence,
`CREATED_BY` links, creator nodes and item nodes are all preserved. -/
def StepMono (g h : Graph) : Prop :=
  (∀ x it, getItemById g x = some it → getItemById h x = some it) ∧
  (∀ a b, hasEdge g.edges a b → hasEdge h.edges a b) ∧
  (∀ l ∈ g.createdBy, l ∈ h.createdBy) ∧
  (∀ x, creatorIn g x → creatorIn h x) ∧
  (∀ x, itemIn g x → itemIn h x)

/-- Fallback result entry (never reached on the concrete stores below). -/
def fallbackEntry : SimilarEntry := ⟨"", "", none, none, none, none, "", [], 0, ⟨0, 1⟩⟩

/-- First entry of a result list. -/
def headEntry (l : List SimilarEntry) : SimilarEntry :=
  match l with
  | r :: _ => r
  | [] => fallbackEntry

/-- The entry returned for an exact query against `gMatrix`. -/
def wEntry100 : SimilarEntry :=
  headEntry (itemFindSimilarItems gMatrix "The Matrix Reloaded" none)

/-- The entry returned for the substring query against `gMatrix`. -/
def wEntry85 : SimilarEntry :=
  headEntry (itemFindSimilarItems gMatrix "The Matrix" none)

/-! ## Helper lemmas -/

theorem le_foldr_max {l : List Nat} {a : Nat} (h : a ∈ l) : a ≤ l.foldr max 0 := by
  induction l with
  | nil => cases h
  | cons b t ih =>
    rcases List.mem_cons.mp h with rfl | h2
    · exact le_max_left _ _
    · exact le_trans (ih h2) (le_max_right _ _)

theorem find?_append_left {α : Type} {p : α → Bool} {l1 l2 : List α} {a : α}
    (h : l1.find? p = some a) : (l1 ++ l2).find? p = some a := by
  rw [List.find?_append, h]; rfl

theorem find?_append_right {α : Type} {p : α → Bool} {l1 l2 : List α}
    (h : l1.find? p = none) : (l1 ++ l2).find? p = l2.find? p := by
  rw [List.find?_append, h]; simp [Option.or]

theorem map_id_on {α : Type} {l : List α} {f : α → α} (h : ∀ a ∈ l, f a = a) :
    l.map f = l := by
  induction l with
  | nil => rfl
  | cons a t ih =>
    simp only [List.map_cons, h a (List.mem_cons_self a t)]
    rw [ih fun b hb => h b (List.mem_cons_of_mem a hb)]

theorem filter_id_on {α : Type} {l : List α} {p : α → Bool}
    (h : ∀ a ∈ l, p a = true) : l.filter p = l := List.filter_eq_self.mpr h

theorem maxIdLength_lt_generateId (g : Graph) (name : String) (ty : Option String) :
    maxIdLength g < (generateId g name ty).length := by
  have hfs : (freshSuffix g).length = maxIdLength g + 1 := by
    show (List.replicate (maxIdLength g + 1) 'f').length = maxIdLength g + 1
    simp
  cases ty with
  | none => simp [generateId, String.length_append, hfs]; omega
  | some t => simp [generateId, String.length_append, hfs]; omega

theorem item_id_le_maxIdLength {g : Graph} {i : Item} (h : i ∈ g.items) :
    i.id.length ≤ maxIdLength g :=
  le_foldr_max (List.mem_append_left _ (List.mem_map_of_mem _ h))

theorem creator_id_le_maxIdLength {g : Graph} {c : CreatorNode}
    (h : c ∈ g.creators) : c.id.length ≤ maxIdLength g :=
  le_foldr_max (List.mem_append_right _ (List.mem_map_of_mem _ h))

theorem generateId_fresh_item {g : Graph} {i : Item} (h : i ∈ g.items)
    (name : String) (ty : Option String) : i.id ≠ generateId g name ty := by
  intro he
  have h1 := item_id_le_maxIdLength h
  have h2 := maxIdLength_lt_generateId g name ty
  rw [he] at h1; omega

theorem generateId_fresh_creator {g : Graph} {c : CreatorNode}
    (h : c ∈ g.creators) (name : String) (ty : Option String) :
    c.id ≠ generateId g name ty := by
  intro he
  have h1 := creator_id_le_maxIdLength h
  have h2 := maxIdLength_lt_generateId g name ty
  rw [he] at h1; omega

theorem find?_id_of_fresh {l : List Item} {it : Item}
    (h : ∀ i ∈ l, i.id ≠ it.id) :
    ((l ++ [it]).find? fun i => i.id == it.id) = some it := by
  have hn : (l.find? fun i => i.id == it.id) = none := by
    rw [List.find?_eq_none]
    intro i hi
    simpa using h i hi
  rw [find?_append_right hn]
  simp

theorem find?_map_id_preserving {l : List Item} {x : String} {it : Item}
    {f : Item → Item} (hf : ∀ i, (f i).id = i.id)
    (h : (l.find? fun i => i.id == x) = some it) :
    ((l.map f).find? fun i => i.id == x) = some (f it) := by
  induction l with
  | nil => simp at h
  | cons a t ih =>
    by_cases hpa : a.id = x
    · rw [List.find?_cons_of_pos _ (by simpa using hpa)] at h
      rw [List.map_cons, List.find?_cons_of_pos _ (by simpa [hf] using hpa)]
      simp at h; rw [h]
    · rw [List.find?_cons_of_neg _ (by simpa using hpa)] at h
      rw [List.map_cons, List.find?_cons_of_neg _ (by simpa [hf] using hpa)]
      exact ih h

theorem applyUpdate_id (it : Item) (u : UpdateData) :
    (applyUpdate it u).id = it.id := rfl

/-! ## C10: partial update semantics of `update_item` -/

/-- C10: `update_item(item_id, update_data)` updates exactly the fields whose
value is not `None`: with no non-`None` field the store is untouched and the
current item is returned; otherwise items with a different id are unchanged
in both directions, and the matched item is returned with precisely the
non-`None` fields overwritten and every other field kept. -/
theorem update_item_updates_exactly_nonnull_fields :
    ∀ (g : Graph) (itemId : String) (u : UpdateData),
      (¬ hasUpdateField u → updateItem g itemId u = (g, getItemById g itemId)) ∧
      (∀ it ∈ (updateItem g itemId u).1.items, it.id ≠ itemId → it ∈ g.items) ∧
      (∀ it ∈ g.items, it.id ≠ itemId → it ∈ (updateItem g itemId u).1.items) ∧
      (∀ it, getItemById g itemId = some it → hasUpdateField u →
        (updateItem g itemId u).2 = some (applyUpdate it u) ∧
        (u.name = none → (applyUpdate it u).name = it.name) ∧
        (∀ v, u.name = some v → (applyUpdate it u).name = v) ∧
        (u.description = none → (applyUpdate it u).description = it.description) ∧
        (∀ v, u.description = some v → (applyUpdate it u).description = some v) ∧
        (u.year = none → (applyUpdate it u).year = it.year) ∧
        (∀ v, u.year = some v → (applyUpdate it u).year = some v) ∧
        (u.auto_detected_type = none →
          (applyUpdate it u).auto_detected_type = it.auto_detected_type) ∧
        (∀ v, u.auto_detected_type = some v →
          (applyUpdate it u).auto_detected_type = some v) ∧
        (u.confidence_score = none →
          (applyUpdate it u).confidence_score = it.confidence_score) ∧
        (∀ v, u.confidence_score = some v →
          (applyUpdate it u).confidence_score = some v) ∧
        (u.verification_status = none →
          (applyUpdate it u).verification_status = it.verification_status) ∧
        (∀ v, u.verification_status = some v →
          (applyUpdate it u).verification_status = v) ∧
        (applyUpdate it u).id = it.id) := by
  intro g itemId u
  by_cases hu : hasUpdateField u
  · rcases hfind : getItemById g itemId with _ | it0
    · have heq : updateItem g itemId u = (g, none) := by
        simp only [updateItem, if_neg (not_not_intro hu), hfind]
      refine ⟨fun hno => absurd hu hno, ?_, ?_, ?_⟩
      · intro it hit _; rw [heq] at hit; exact hit
      · intro it hit _; rw [heq]; exact hit
      · intro it hfind2 _
        exact absurd hfind2 (by simp)
    · have heq : updateItem g itemId u =
        ({ g with items := g.items.map fun it =>
            if it.id = itemId then applyUpdate it u else it },
          getItemById { g with items := g.items.map fun it =>
            if it.id = itemId then applyUpdate it u else it } itemId) := by
        simp only [updateItem, if_neg (not_not_intro hu), hfind]
      refine ⟨fun hno => absurd hu hno, ?_, ?_, ?_⟩
      · intro it hit hne
        rw [heq] at hit
        simp only [List.mem_map] at hit
        obtain ⟨a, ha, hfa⟩ := hit
        by_cases hid : a.id = itemId
        · exfalso
          apply hne
          rw [← hfa]
          simp [hid, applyUpdate_id]
        · rw [← hfa]; simpa [hid] using ha
      · intro it hit hne
        rw [heq]
        simp only [List.mem_map]
        exact ⟨it, hit, by simp [hne]⟩
      · intro it hfind2 _
        have hit0 : it0 = it := by injection hfind2
        subst hit0
        have hid : it0.id = itemId := by simpa using List.find?_some hfind
        refine ⟨?_, ?_⟩
        · rw [heq]
          have hmap := find?_map_id_preserving
            (f := fun i => if i.id = itemId then applyUpdate i u else i)
            (fun i => by by_cases h2 : i.id = itemId <;> simp [h2, applyUpdate_id])
            hfind
          simp only [getItemById] at hmap ⊢
          rw [hmap]
          simp [hid]
        · refine ⟨?_, ?_, ?_, ?_, ?_, ?_, ?_, ?_, ?_, ?_, ?_, ?_, ?_⟩ <;>
            first
              | (intro hv; simp [applyUpdate, hv])
              | (intro v hv; simp [applyUpdate, hv])
              | rfl
  · have heq : updateItem g itemId u = (g, getItemById g itemId) := by
      simp only [updateItem, if_pos hu]
    refine ⟨fun _ => heq, ?_, ?_, ?_⟩
    · intro it hit _; rw [heq] at hit; exact hit
    · intro it hit _; rw [heq]; exact hit
    · intro it _ hu2; exact absurd hu2 hu

/-- Witness for C10 at a concrete store and update. -/
theorem update_item_witness :
    (updateItem gMain "main-1" { year := some 1999 }).2 =
      some (applyUpdate (mkItem "main-1" "Main") { year := some 1999 }) ∧
    (applyUpdate (mkItem "main-1" "Main")
      ({ year := some 1999 } : UpdateData)).year = some 1999 ∧
    (applyUpdate (mkItem "main-1" "Main")
      ({ year := some 1999 } : UpdateData)).name = "Main" := by
  have h := (update_item_updates_exactly_nonnull_fields gMain "main-1"
    { year := some 1999 }).2.2.2 (mkItem "main-1" "Main") (by decide) (by decide)
  exact ⟨h.1, h.2.2.2.2.2.2.1 1999 rfl, h.2.1 rfl⟩

/-! ## C2: `merge_items` error handling -/

/-- C2 (amended): `merge_items` performs no validation at all and raises
neither `NotFoundError` nor `InvalidArgumentError` (no such classes exist in
the code base).  It always returns the target id; whenever the source id or
target id is missing, or the two ids coincide, the operation degenerates to
`DETACH DELETE` of the source — so a missing source id leaves the item and
edge sets untouched, while a self-merge silently deletes the item together
with all of its edges instead of failing. -/
theorem merge_items_no_validation :
    ∀ (g : Graph) (s t : String),
      (mergeItems g s t).2 = t ∧
      ((¬ itemIn g s ∨ ¬ itemIn g t ∨ s = t) →
        (mergeItems g s t).1 = detachDeleteItem g s) ∧
      (¬ itemIn g s → WFEdges g →
        (mergeItems g s t).1.items = g.items ∧
        (mergeItems g s t).1.edges = g.edges) := by
  intro g s t
  have hIncId : (¬ itemIn g s ∨ ¬ itemIn g t ∨ s = t) →
      transferIncoming g s t = g := by
    rintro (hns | hnt | heq)
    · unfold transferIncoming
      rw [if_neg (fun h : itemIn g s ∧ itemIn g t => hns h.1)]
    · unfold transferIncoming
      rw [if_neg (fun h : itemIn g s ∧ itemIn g t => hnt h.2)]
    · subst heq
      by_cases hst : itemIn g s ∧ itemIn g s
      · simp only [transferIncoming, if_pos hst]
        have hmap : g.edges.map (mergeIncomingStep g s s) = g.edges := by
          apply map_id_on
          intro e he
          have hnc : ¬ (e.dst = s ∧ itemIn g e.src ∧ ¬ hasEdge g.edges e.src s) := by
            rintro ⟨hdst, -, hno⟩
            exact hno ⟨e, he, rfl, hdst⟩
          unfold mergeIncomingStep
          rw [if_neg hnc]
        rw [hmap]
      · unfold transferIncoming
        rw [if_neg hst]
  have hOutId : (¬ itemIn g s ∨ ¬ itemIn g t ∨ s = t) →
      transferOutgoing g s t = g := by
    rintro (hns | hnt | heq)
    · unfold transferOutgoing
      rw [if_neg (fun h : itemIn g s ∧ itemIn g t => hns h.1)]
    · unfold transferOutgoing
      rw [if_neg (fun h : itemIn g s ∧ itemIn g t => hnt h.2)]
    · subst heq
      by_cases hst : itemIn g s ∧ itemIn g s
      · simp only [transferOutgoing, if_pos hst]
        have hmap : g.edges.map (mergeOutgoingStep g s s) = g.edges := by
          apply map_id_on
          intro e he
          have hnc : ¬ (e.src = s ∧ itemIn g e.dst ∧ ¬ hasEdge g.edges s e.dst) := by
            rintro ⟨hsrc, -, hno⟩
            exact hno ⟨e, he, hsrc, rfl⟩
          unfold mergeOutgoingStep
          rw [if_neg hnc]
        rw [hmap]
      · unfold transferOutgoing
        rw [if_neg hst]
  refine ⟨rfl, ?_, ?_⟩
  · intro hc
    show detachDeleteItem (transferOutgoing (transferIncoming g s t) s t) s = _
    rw [hIncId hc, hOutId hc]
  · intro hns hwf
    have heq : (mergeItems g s t).1 = detachDeleteItem g s := by
      show detachDeleteItem (transferOutgoing (transferIncoming g s t) s t) s = _
      rw [hIncId (Or.inl hns), hOutId (Or.inl hns)]
    rw [heq]
    constructor
    · apply filter_id_on
      intro i hi
      have : i.id ≠ s := fun h => hns ⟨i, hi, h⟩
      simpa using this
    · apply filter_id_on
      intro e he
      have h1 : e.src ≠ s := fun h => hns (h ▸ (hwf e he).1)
      have h2 : e.dst ≠ s := fun h => hns (h ▸ (hwf e he).2)
      simp [h1, h2]

/-- C2 counterexample: on a store where item `a` exists with one incoming
edge, the self-merge `merge_items("a", "a")` raises nothing — it returns
`"a"` as a success and silently deletes the item and its edge (the exact
corruption the claim rules out), and a merge with a missing source id also
returns success instead of `NotFoundError`. -/
theorem merge_items_self_merge_cex :
    (mergeItems gSelfMerge "a" "a").2 = "a" ∧
    getItemById gSelfMerge "a" = some (mkItem "a" "A") ∧
    gSelfMerge.edges.length = 1 ∧
    getItemById (mergeItems gSelfMerge "a" "a").1 "a" = none ∧
    (mergeItems gSelfMerge "a" "a").1.edges = [] ∧
    (mergeItems gSelfMerge "zzz" "a").2 = "a" := by decide

/-- Witness for C2 (amended) on the concrete store. -/
theorem merge_items_no_validation_witness :
    (mergeItems gSelfMerge "a" "a").1 = detachDeleteItem gSelfMerge "a" ∧
    (mergeItems gSelfMerge "zzz" "a").1.items = gSelfMerge.items ∧
    (mergeItems gSelfMerge "zzz" "a").1.edges = gSelfMerge.edges := by
  have h1 := (merge_items_no_validation gSelfMerge "a" "a").2.1 (Or.inr (Or.inr rfl))
  have h2 := (merge_items_no_validation gSelfMerge "zzz" "a").2.2
    (by decide) (by decide)
  exact ⟨h1, h2.1, h2.2⟩

/-! ## C7: merge resolution with a missing target item -/

/-- C7 (amended): a merge resolution whose `selectedItemId` does not exist
does not fail with `NotFoundError` (no such class exists in the code base):
`create_influence_relationship` `MATCH`es both endpoints, binds no row when
one is missing and returns silently, so the route reports success while
writing no edge for that influence. -/
theorem create_influence_missing_endpoint_noop :
    (∀ (g : Graph) (fromId toId : String) (a : InfluenceAttrs),
        ¬ itemIn g fromId ∨ ¬ itemIn g toId →
        createInfluenceRelationship g fromId toId a = g) ∧
    mergeWithExisting gMain "main-1" payloadX resGhost =
      .ok (gMain, "main-1") := by
  constructor
  · intro g fromId toId a hmiss
    have hnc : ¬ (itemIn g fromId ∧ itemIn g toId) := fun h =>
      hmiss.elim (fun hn => hn h.1) fun hn => hn h.2
    simp [createInfluenceRelationship, hnc]
  · decide

/-- C7 counterexample: applying a merge resolution whose target id `ghost`
exists in no store silently succeeds with the store unchanged (no edge is
written, no error raised) — the claim requires a `NotFoundError`. -/
theorem merge_resolution_missing_target_cex :
    ¬ itemIn gMain "ghost" ∧
    mergeWithExisting gMain "main-1" payloadX resGhost =
      .ok (gMain, "main-1") ∧
    gMain.edges = [] := by decide

/-- Witness for C7 (amended) on the concrete store. -/
theorem create_influence_missing_endpoint_witness :
    createInfluenceRelationship gMain "ghost" "main-1" (routeAttrs infX) =
      gMain :=
  create_influence_missing_endpoint_noop.1 gMain "ghost" "main-1"
    (routeAttrs infX) (Or.inl (by decide))

/-! ## Result-membership infrastructure for `find_similar_items` -/

theorem toList_inj {a b : String} (h : a.toList = b.toList) : a = b := by
  cases a; cases b
  simp only [String.toList] at h
  rw [h]

theorem strContains_antisymm {a b : String} (h1 : strContains a b)
    (h2 : strContains b a) : a = b := by
  have hl : b.toList = a.toList := h1.sublist.eq_of_length_le h2.length_le
  exact (toList_inj hl).symm

theorem mem_insertOrdered {le : FuzzyRow → FuzzyRow → Bool} {x a : FuzzyRow}
    {l : List FuzzyRow} : a ∈ insertOrdered le x l ↔ a = x ∨ a ∈ l := by
  induction l with
  | nil => simp [insertOrdered]
  | cons b t ih =>
    by_cases hc : le x b = true
    · simp [insertOrdered, hc]
    · simp only [insertOrdered, if_neg hc, List.mem_cons, ih]
      tauto

theorem mem_sortRows {le : FuzzyRow → FuzzyRow → Bool} {a : FuzzyRow}
    {l : List FuzzyRow} : a ∈ sortRows le l ↔ a ∈ l := by
  induction l with
  | nil => simp [sortRows]
  | cons b t ih =>
    simp only [sortRows, mem_insertOrdered, ih, List.mem_cons]

theorem mkSimilarEntry_name (g : Graph) (norm : String) (row : FuzzyRow) :
    (mkSimilarEntry g norm row).name = row.item.name := rfl

theorem mkSimilarEntry_score (g : Graph) (norm : String) (row : FuzzyRow) :
    (mkSimilarEntry g norm row).similarity_score =
      pyScore (normalizeText row.item.name) norm row.hits row.total := rfl

theorem itemFindSimilar_mem {g : Graph} {name : String}
    {creatorName : Option String} {r : SimilarEntry}
    (h : r ∈ itemFindSimilarItems g name creatorName) :
    ∃ row : FuzzyRow, row.item ∈ g.items ∧
      r = mkSimilarEntry g (normalizeText name) row := by
  simp only [itemFindSimilarItems, List.mem_map] at h
  obtain ⟨row, hrow, hr⟩ := h
  have hrow2 := List.mem_of_mem_take hrow
  rw [mem_sortRows, List.mem_filterMap] at hrow2
  obtain ⟨i, hi, hif⟩ := hrow2
  refine ⟨row, ?_, hr.symm⟩
  by_cases hc : cypherInclude g i (normalizeText name)
      (creatorName.getD "")
      (countMatches (filterWords (splitOnSpaceStr (normalizeText name)))
        (itemWords i.name))
      (filterWords (splitOnSpaceStr (normalizeText name))).length
  · rw [if_pos hc] at hif
    have : row.item = i := by rw [← Option.some_inj.mp hif]
    rw [this]; exact hi
  · rw [if_neg hc] at hif
    exact absurd hif (by simp)

/-! ## C4: exact-match scoring and ranking -/

/-- C4 (amended): a *returned* item whose normalized name equals the
normalized candidate name is assigned similarity score exactly 100; however
such an item can be missing from the results altogether, because the Cypher
inclusion filter compares the raw lowercased stored name against the
*normalized* candidate name, and the returned list is ordered by the Cypher
token-match count (`ORDER BY matches DESC`), not by the Python similarity
score. -/
theorem find_similar_exact_normalized_scores_100 :
    ∀ (g : Graph) (name : String) (creatorName : Option String),
      ∀ r ∈ itemFindSimilarItems g name creatorName,
        normalizeText r.name = normalizeText name →
        r.similarity_score = ⟨100, 1⟩ := by
  intro g name creatorName r hr hnorm
  obtain ⟨row, hmem, hreq⟩ := itemFindSimilar_mem hr
  subst hreq
  rw [mkSimilarEntry_name] at hnorm
  rw [mkSimilarEntry_score]
  unfold pyScore
  rw [if_pos hnorm]

/-- C4 counterexample: the store contains an item whose normalized name
equals the normalized candidate name (the stored name *is* the candidate
name, "Don't Stop"), yet `find_similar_items` returns the empty list — the
item is neither scored 100 nor placed first, because the inclusion filter
compares the raw lowercase name `don't stop` with the normalized search name
`don t stop`, no rule fires, and the row is filtered out. -/
theorem find_similar_exact_match_missing_cex :
    (mkItem "dont-stop-x" "Don't Stop") ∈ gDontStop.items ∧
    normalizeText (mkItem "dont-stop-x" "Don't Stop").name =
      normalizeText "Don't Stop" ∧
    itemFindSimilarItems gDontStop "Don't Stop" none = [] := by decide

/-- Witness for C4 (amended): on an exact query the returned entry is scored
100. -/
theorem find_similar_exact_scores_100_witness :
    wEntry100.similarity_score = ⟨100, 1⟩ :=
  find_similar_exact_normalized_scores_100 gMatrix "The Matrix Reloaded" none
    wEntry100 (by decide) (by decide)

/-! ## C3: the 90/85 substring scores -/

/-- C3 (amended): the two substring scores are the reverse of the claim: a
returned item whose normalized name is strictly contained in the normalized
candidate name scores 90 (guarded on the candidate's normalized length ≥ 4),
while an item whose normalized name strictly *contains* the normalized
candidate name scores 85 (guarded on the item's normalized length ≥ 4). -/
theorem find_similar_substring_scores :
    ∀ (g : Graph) (name : String) (creatorName : Option String),
      ∀ r ∈ itemFindSimilarItems g name creatorName,
        (strContains (normalizeText name) (normalizeText r.name) →
          normalizeText r.name ≠ normalizeText name →
          4 ≤ (normalizeText name).length →
          r.similarity_score = ⟨90, 1⟩) ∧
        (strContains (normalizeText r.name) (normalizeText name) →
          normalizeText r.name ≠ normalizeText name →
          4 ≤ (normalizeText r.name).length →
          r.similarity_score = ⟨85, 1⟩) := by
  intro g name creatorName r hr
  obtain ⟨row, hmem, hreq⟩ := itemFindSimilar_mem hr
  subst hreq
  rw [mkSimilarEntry_name, mkSimilarEntry_score]
  constructor
  · intro hcont hne hlen
    unfold pyScore
    rw [if_neg hne, if_pos ⟨hcont, hlen⟩]
  · intro hcont hne hlen
    have hnot90 : ¬ (strContains (normalizeText name)
        (normalizeText row.item.name) ∧ 4 ≤ (normalizeText name).length) := by
      rintro ⟨hrev, -⟩
      exact hne (strContains_antisymm hcont hrev)
    unfold pyScore
    rw [if_neg hne, if_neg hnot90, if_pos ⟨hcont, hlen⟩]

/-- C3 counterexample: "The Matrix" (normalized, length ≥ 4) is strictly
contained in "The Matrix Reloaded" (normalized, length ≥ 4); the claim
requires score 90 for this candidate⊂existing containment, but the code
returns the item with score 85. -/
theorem find_similar_substring_scores_swapped_cex :
    strContains (normalizeText "The Matrix Reloaded")
      (normalizeText "The Matrix") ∧
    normalizeText "The Matrix" ≠ normalizeText "The Matrix Reloaded" ∧
    4 ≤ (normalizeText "The Matrix").length ∧
    4 ≤ (normalizeText "The Matrix Reloaded").length ∧
    (itemFindSimilarItems gMatrix "The Matrix" none).map
      (fun r => (r.name, r.similarity_score)) =
      [("The Matrix Reloaded", ⟨85, 1⟩)] := by decide

/-- Witness for C3 (amended) on the concrete store. -/
theorem find_similar_substring_scores_witness :
    wEntry85.similarity_score = ⟨85, 1⟩ :=
  (find_similar_substring_scores gMatrix "The Matrix" none wEntry85
      (by decide)).2 (by decide) (by decide) (by decide)

/-! ## C5: the no-match behaviour of the two matchers -/

/-- C5 (amended): the `ItemService` matcher behaves as claimed — when no
inclusion rule fires for any stored item the result is the empty list (and
in particular "The Matrix" against a store holding only "Inception" yields
`[]`).  The `GraphService.find_similar_items` wired to the `/influences/save`
route does *not*: its `CASE … ELSE 50` catch-all passes the
`WHERE name_score >= 50` filter, so unrelated items are returned with score
50 instead of an empty list. -/
theorem item_find_similar_no_match_empty :
    (∀ (g : Graph) (name : String) (creatorName : Option String),
        (∀ i ∈ g.items,
          ¬ cypherInclude g i (normalizeText name) (creatorName.getD "")
            (countMatches (filterWords (splitOnSpaceStr (normalizeText name)))
              (itemWords i.name))
            (filterWords (splitOnSpaceStr (normalizeText name))).length) →
        itemFindSimilarItems g name creatorName = []) ∧
    itemFindSimilarItems gInception "The Matrix" none = [] := by
  constructor
  · intro g name creatorName hnone
    have hrows : (g.items.filterMap fun (i : Item) =>
        if cypherInclude g i (normalizeText name) (creatorName.getD "")
            (countMatches (filterWords (splitOnSpaceStr (normalizeText name)))
              (itemWords i.name))
            (filterWords (splitOnSpaceStr (normalizeText name))).length then
          some (⟨i, countMatches
              (filterWords (splitOnSpaceStr (normalizeText name)))
              (itemWords i.name),
            (filterWords (splitOnSpaceStr (normalizeText name))).length⟩ : FuzzyRow)
        else none) = [] := by
      rw [List.filterMap_eq_nil_iff]
      intro i hi
      rw [if_neg (hnone i hi)]
    show ((sortRows fuzzyOrder _).take 5).map _ = []
    rw [hrows]
    rfl
  · decide

/-- C5 counterexample: against a store containing only "Inception", the
query "The Matrix" must return the empty list under every rule of the claim,
and the `ItemService` matcher does — but `GraphService.find_similar_items`
(the similarity surface wired to the save route) returns "Inception" with
its floor score of 50, a non-empty result. -/
theorem graph_find_similar_unrelated_cex :
    itemFindSimilarItems gInception "The Matrix" none = [] ∧
    (graphFindSimilarItems gInception "The Matrix" none).map
      (fun r => (r.name, r.similarity_score)) = [("Inception", 50)] ∧
    graphFindSimilarItems gInception "The Matrix" none ≠ [] := by decide

/-- Witness for C5 (amended) on the concrete store. -/
theorem item_find_similar_no_match_empty_witness :
    itemFindSimilarItems gInception "The Matrix" none = [] :=
  item_find_similar_no_match_empty.1 gInception "The Matrix" none (by decide)

/-! ## C9: empty / `none` / `null` influence names -/

theorem processInfluence_invalid {g : Graph} {existingItem : Item}
    {inf : StructuredInfluence} (h : invalidInfluenceName inf.name) :
    processInfluence g existingItem inf = g := by
  unfold invalidInfluenceName at h
  unfold processInfluence
  rw [if_pos h]

theorem conflictStep_acc_cases {g : Graph}
    {acc : List (Nat × InfluenceConflict) × Nat}
    {p : Nat × StructuredInfluence} :
    ∀ e ∈ (conflictStep g acc p).1,
      e ∈ acc.1 ∨ (e.1 = p.1 ∧ ¬ invalidInfluenceName p.2.name) := by
  intro e he
  unfold conflictStep at he
  by_cases hval : pyStrip p.2.name = "" ∨
      strLower (pyStrip p.2.name) ∈ (["none", "null"] : List String)
  · rw [if_pos hval] at he
    exact Or.inl he
  · rw [if_neg hval] at he
    by_cases hcs : itemFindSimilarItems g (pyStrip p.2.name) p.2.creator_name = []
    · rw [if_pos hcs] at he
      exact Or.inl he
    · rw [if_neg hcs] at he
      rcases List.mem_append.mp he with h1 | h2
      · exact Or.inl h1
      · refine Or.inr ⟨?_, ?_⟩
        · simpa using congrArg Prod.fst (List.mem_singleton.mp h2)
        · unfold invalidInfluenceName
          exact hval

theorem conflicts_fold_indices {g : Graph} :
    ∀ (l : List (Nat × StructuredInfluence))
      (acc : List (Nat × InfluenceConflict) × Nat),
      ∀ e ∈ (l.foldl (conflictStep g) acc).1,
        e ∈ acc.1 ∨ ∃ p ∈ l, e.1 = p.1 ∧ ¬ invalidInfluenceName p.2.name := by
  intro l
  induction l with
  | nil => intro acc e he; exact Or.inl he
  | cons p t ih =>
    intro acc e he
    rw [List.foldl_cons] at he
    rcases ih (conflictStep g acc p) e he with h1 | ⟨q, hq, hqe⟩
    · rcases conflictStep_acc_cases e h1 with h2 | h3
      · exact Or.inl h2
      · exact Or.inr ⟨p, List.mem_cons_self p t, h3⟩
    · exact Or.inr ⟨q, List.mem_cons_of_mem p hq, hqe⟩

/-- C9 (amended): a candidate influence whose name is empty after trimming
or equal (case-insensitively) to `none`/`null` never appears in
`ConflictReport.influence_conflicts`, and is skipped — no item created, no
edge written — by the influence loop of `add_influences_to_existing` (and
hence by the default create-new resolution path, which routes such
candidates into that loop).  However, a caller-supplied *merge* resolution
for such a candidate is applied by the route without any name validation and
does write an `INFLUENCES` edge from the selected item. -/
theorem invalid_influence_names_skipped :
    (∀ (g : Graph) (d : StructuredOutput) (i : Nat)
        (inf : StructuredInfluence),
        (i, inf) ∈ d.influences.enum → invalidInfluenceName inf.name →
        ∀ e ∈ (findComprehensiveConflicts g d).influence_conflicts, e.1 ≠ i) ∧
    (∀ (g : Graph) (existingItem : Item) (inf : StructuredInfluence),
        invalidInfluenceName inf.name →
        processInfluence g existingItem inf = g) := by
  constructor
  · intro g d i inf hmem hinv e he hei
    have he2 : e ∈ (d.influences.enum.foldl (conflictStep g) ([], 0)).1 := he
    rcases conflicts_fold_indices d.influences.enum ([], 0) e he2 with h1 | ⟨p, hp, hpe, hpv⟩
    · exact absurd h1 (List.not_mem_nil e)
    · have hgi : d.influences[i]? = some inf := by
        simpa using List.mem_enum_iff_getElem?.mp hmem
      have hgp : d.influences[p.1]? = some p.2 := by
        simpa using List.mem_enum_iff_getElem?.mp hp
      have hip : i = p.1 := hei.symm.trans hpe
      rw [← hip] at hgp
      rw [hgi] at hgp
      have : inf = p.2 := by injection hgp
      exact hpv (this ▸ hinv)
  · intro g existingItem inf hinv
    exact processInfluence_invalid hinv

/-- C9 counterexample: the candidate named `none` is invalid per the claim,
yet a caller-supplied merge resolution selecting the existing item `inf-1`
writes the edge `inf-1 → main-1` — the claim asserts no edge is written for
such a candidate on the resolution-application path. -/
theorem invalid_name_merge_resolution_writes_edge_cex :
    invalidInfluenceName infNone.name ∧
    ¬ hasEdge gMainInf.edges "inf-1" "main-1" ∧
    (mergeWithExisting gMainInf "main-1" payloadNone resInf1).map
      (fun p => p.1.edges.map fun e => (e.src, e.dst)) =
      .ok [("inf-1", "main-1")] := by decide

/-- Witness for C9 (amended): the skip branch on a concrete store. -/
theorem invalid_influence_names_skipped_witness :
    processInfluence gMain (mkItem "main-1" "Main") infNone = gMain :=
  invalid_influence_names_skipped.2 gMain (mkItem "main-1" "Main") infNone
    (by decide)

/-! ## C6: edge uniqueness invariant and upsert semantics -/

theorem uniqueEdges_map_pair_preserving {l : List Edge} {f : Edge → Edge}
    (hf : ∀ e, (f e).src = e.src ∧ (f e).dst = e.dst)
    (h : UniqueEdges l) : UniqueEdges (l.map f) := by
  unfold UniqueEdges at h ⊢
  rw [List.pairwise_map]
  refine h.imp ?_
  intro a b hab hfs
  exact hab ⟨((hf a).1.symm.trans hfs.1).trans (hf b).1,
    ((hf a).2.symm.trans hfs.2).trans (hf b).2⟩

theorem uniqueEdges_filter {l : List Edge} {p : Edge → Bool}
    (h : UniqueEdges l) : UniqueEdges (l.filter p) :=
  h.sublist (List.filter_sublist l)

theorem uniqueEdges_createInfluence {g : Graph} {fromId toId : String}
    {a : InfluenceAttrs} (h : UniqueEdges g.edges) :
    UniqueEdges (createInfluenceRelationship g fromId toId a).edges := by
  unfold createInfluenceRelationship
  by_cases h1 : itemIn g fromId ∧ itemIn g toId
  · rw [if_pos h1]
    by_cases h2 : hasEdge g.edges fromId toId
    · rw [if_pos h2]
      refine uniqueEdges_map_pair_preserving ?_ h
      intro e
      by_cases hc : e.src = fromId ∧ e.dst = toId <;> simp [hc]
    · rw [if_neg h2]
      show UniqueEdges (g.edges ++ [⟨fromId, toId, a⟩])
      unfold UniqueEdges at h ⊢
      rw [List.pairwise_append]
      refine ⟨h, List.pairwise_singleton _ _, ?_⟩
      intro e he e' he'
      have he'2 : e' = (⟨fromId, toId, a⟩ : Edge) := List.mem_singleton.mp he'
      intro hsp
      exact h2 ⟨e, he, by rw [he'2] at hsp; exact ⟨hsp.1, hsp.2⟩⟩
  · rw [if_neg h1]
    exact h

theorem uniqueEdges_transferIncoming {g : Graph} {s t : String}
    (h : UniqueEdges g.edges) :
    UniqueEdges (transferIncoming g s t).edges := by
  unfold transferIncoming
  by_cases hst : itemIn g s ∧ itemIn g t
  · rw [if_pos hst]
    show UniqueEdges (g.edges.map _)
    unfold UniqueEdges at h ⊢
    rw [List.pairwise_map]
    refine List.Pairwise.imp_of_mem ?_ h
    intro e1 e2 he1 he2 hne hsp
    unfold mergeIncomingStep at hsp
    by_cases c1 : e1.dst = s ∧ itemIn g e1.src ∧ ¬ hasEdge g.edges e1.src t <;>
      by_cases c2 : e2.dst = s ∧ itemIn g e2.src ∧ ¬ hasEdge g.edges e2.src t
    · rw [if_pos c1, if_pos c2] at hsp
      exact hne ⟨hsp.1, c1.1.trans c2.1.symm⟩
    · rw [if_pos c1, if_neg c2] at hsp
      exact c1.2.2 ⟨e2, he2, hsp.1.symm, hsp.2.symm⟩
    · rw [if_neg c1, if_pos c2] at hsp
      exact c2.2.2 ⟨e1, he1, hsp.1, hsp.2⟩
    · rw [if_neg c1, if_neg c2] at hsp
      exact hne hsp
  · rw [if_neg hst]
    exact h

theorem uniqueEdges_transferOutgoing {g : Graph} {s t : String}
    (h : UniqueEdges g.edges) :
    UniqueEdges (transferOutgoing g s t).edges := by
  unfold transferOutgoing
  by_cases hst : itemIn g s ∧ itemIn g t
  · rw [if_pos hst]
    show UniqueEdges (g.edges.map _)
    unfold UniqueEdges at h ⊢
    rw [List.pairwise_map]
    refine List.Pairwise.imp_of_mem ?_ h
    intro e1 e2 he1 he2 hne hsp
    unfold mergeOutgoingStep at hsp
    by_cases c1 : e1.src = s ∧ itemIn g e1.dst ∧ ¬ hasEdge g.edges t e1.dst <;>
      by_cases c2 : e2.src = s ∧ itemIn g e2.dst ∧ ¬ hasEdge g.edges t e2.dst
    · rw [if_pos c1, if_pos c2] at hsp
      exact hne ⟨c1.1.trans c2.1.symm, hsp.2⟩
    · rw [if_pos c1, if_neg c2] at hsp
      exact c1.2.2 ⟨e2, he2, hsp.1.symm, hsp.2.symm⟩
    · rw [if_neg c1, if_pos c2] at hsp
      exact c2.2.2 ⟨e1, he1, hsp.1, hsp.2⟩
    · rw [if_neg c1, if_neg c2] at hsp
      exact hne hsp
  · rw [if_neg hst]
    exact h

theorem uniqueEdges_mergeItems {g : Graph} {s t : String}
    (h : UniqueEdges g.edges) : UniqueEdges (mergeItems g s t).1.edges := by
  show UniqueEdges (detachDeleteItem _ _).edges
  unfold detachDeleteItem
  exact uniqueEdges_filter (uniqueEdges_transferOutgoing (uniqueEdges_transferIncoming h))

theorem reachable_uniqueEdges {g : Graph} (h : Reachable g) :
    UniqueEdges g.edges := by
  induction h with
  | empty => exact List.Pairwise.nil
  | create_item n d y t c _ ih => exact ih
  | create_creator n t _ ih =>
    show UniqueEdges (createCreator _ n t).1.edges
    unfold createCreator
    split
    · exact ih
    · exact ih
  | link_creator i c r _ ih =>
    show UniqueEdges (linkCreatorToItem _ i c r).edges
    unfold linkCreatorToItem
    split
    · dsimp only
      split
      · exact ih
      · exact ih
    · exact ih
  | ensure_category n _ ih =>
    show UniqueEdges (ensureCategoryExists _ n).edges
    unfold ensureCategoryExists
    split
    · exact ih
    · exact ih
  | create_influence a b at_ _ ih => exact uniqueEdges_createInfluence ih
  | update_item i u _ ih =>
    show UniqueEdges (updateItem _ i u).1.edges
    unfold updateItem
    split
    · exact ih
    · split
      · exact ih
      · exact ih
  | delete_item i _ ih =>
    show UniqueEdges (deleteItemCompletely _ i).edges
    exact uniqueEdges_filter ih
  | merge_items s t _ ih => exact uniqueEdges_mergeItems ih

/-- C6: in every store state reachable through the mutation surface of the
services there is at most one `INFLUENCES` edge per ordered pair of items,
and `create_influence_relationship` on a pair of existing items that already
has an edge is an upsert: the edge count is unchanged, the pair's edge now
carries exactly the supplied attribute set, and no new ordered pair
appears. -/
theorem influence_edges_unique_and_upsert :
    (∀ g : Graph, Reachable g → UniqueEdges g.edges) ∧
    (∀ (g : Graph) (fromId toId : String) (a : InfluenceAttrs),
        itemIn g fromId → itemIn g toId → hasEdge g.edges fromId toId →
        (createInfluenceRelationship g fromId toId a).edges.length =
          g.edges.length ∧
        (∃ e ∈ (createInfluenceRelationship g fromId toId a).edges,
          e.src = fromId ∧ e.dst = toId ∧ e.attrs = a) ∧
        (∀ e ∈ (createInfluenceRelationship g fromId toId a).edges,
          ∃ e0 ∈ g.edges, samePair e e0)) := by
  constructor
  · intro g hg
    exact reachable_uniqueEdges hg
  · intro g fromId toId a hf ht he
    have heq : createInfluenceRelationship g fromId toId a =
        { g with edges := g.edges.map fun e =>
            if e.src = fromId ∧ e.dst = toId then { e with attrs := a } else e } := by
      unfold createInfluenceRelationship
      rw [if_pos ⟨hf, ht⟩, if_pos he]
    rw [heq]
    refine ⟨List.length_map _ _, ?_, ?_⟩
    · obtain ⟨e0, he0, hsrc, hdst⟩ := he
      refine ⟨{ e0 with attrs := a }, ?_, hsrc, hdst, rfl⟩
      have hfe : (fun e => if e.src = fromId ∧ e.dst = toId then { e with attrs := a } else e) e0 =
          { e0 with attrs := a } := by
        dsimp only
        rw [if_pos ⟨hsrc, hdst⟩]
      exact hfe ▸ List.mem_map_of_mem _ he0
    · intro e hmem
      rcases List.mem_map.mp hmem with ⟨e0, he0, hfe⟩
      refine ⟨e0, he0, ?_⟩
      by_cases hc : e0.src = fromId ∧ e0.dst = toId
      · rw [if_pos hc] at hfe
        rw [← hfe]
        exact ⟨rfl, rfl⟩
      · rw [if_neg hc] at hfe
        rw [← hfe]
        exact ⟨rfl, rfl⟩

/-- Witness for C6 on a concrete reachable store. -/
theorem influence_edges_unique_and_upsert_witness :
    UniqueEdges gR3.edges ∧
    (createInfluenceRelationship gR3 "a-f" "b-ffff" (sampleAttrs 60)).edges.length =
      gR3.edges.length ∧
    (∃ e ∈ (createInfluenceRelationship gR3 "a-f" "b-ffff" (sampleAttrs 60)).edges,
      e.src = "a-f" ∧ e.dst = "b-ffff" ∧ e.attrs = sampleAttrs 60) := by
  have hre : Reachable gR3 :=
    Reachable.create_influence "a-f" "b-ffff" (sampleAttrs 50)
      (Reachable.create_item "B" none none none none
        (Reachable.create_item "A" none none none none Reachable.empty))
  have hup := influence_edges_unique_and_upsert.2 gR3 "a-f" "b-ffff"
    (sampleAttrs 60) (by decide) (by decide) (by decide)
  exact ⟨influence_edges_unique_and_upsert.1 gR3 hre, hup.1, hup.2.1⟩

/-! ## C1: edge transfer of `merge_items` -/

theorem transferIncoming_items (g : Graph) (s t : String) :
    (transferIncoming g s t).items = g.items := by
  unfold transferIncoming; split <;> rfl

theorem transferOutgoing_items (g : Graph) (s t : String) :
    (transferOutgoing g s t).items = g.items := by
  unfold transferOutgoing; split <;> rfl

theorem transferIncoming_edges {g : Graph} {s t : String}
    (h : itemIn g s ∧ itemIn g t) :
    (transferIncoming g s t).edges = g.edges.map (mergeIncomingStep g s t) := by
  unfold transferIncoming; rw [if_pos h]

theorem transferOutgoing_edges {g : Graph} {s t : String}
    (h : itemIn g s ∧ itemIn g t) :
    (transferOutgoing g s t).edges = g.edges.map (mergeOutgoingStep g s t) := by
  unfold transferOutgoing; rw [if_pos h]

theorem itemIn_of_items_eq {g h : Graph} (he : h.items = g.items) (x : String) :
    itemIn h x ↔ itemIn g x := by
  unfold itemIn; rw [he]

/-- C1: for distinct existing items, after `merge_items(A, B)` on a store
satisfying the §3 uniqueness invariant with well-formed edges, (1) the source
item is gone; (2) every pre-existing edge touching `A` has its endpoint-
renamed ordered pair present in the result; (3) the result has no parallel
duplicate edges (so together with (2), each such pair is present exactly
once); (4) every pre-existing edge not touching `A` — in particular a target
edge that wins a duplicate collision — survives unchanged with its
attributes; (5) every result edge descends from a pre-existing edge with the
same attributes and the endpoint-renamed pair (nothing is invented); and
(6) an edge touching `A` whose renamed pair collides with no other edge's
renamed pair is re-pointed wholesale, attributes included. -/
theorem merge_items_transfers_edges :
    ∀ (g : Graph) (srcId tgtId : String),
      itemIn g srcId → itemIn g tgtId → srcId ≠ tgtId →
      UniqueEdges g.edges → WFEdges g →
      (getItemById (mergeItems g srcId tgtId).1 srcId = none) ∧
      (∀ e ∈ g.edges, touches srcId e →
        ∃ e' ∈ (mergeItems g srcId tgtId).1.edges,
          e'.src = mapEnd srcId tgtId e.src ∧
          e'.dst = mapEnd srcId tgtId e.dst) ∧
      UniqueEdges (mergeItems g srcId tgtId).1.edges ∧
      (∀ b ∈ g.edges, b.src ≠ srcId → b.dst ≠ srcId →
        b ∈ (mergeItems g srcId tgtId).1.edges) ∧
      (∀ e' ∈ (mergeItems g srcId tgtId).1.edges, ∃ e ∈ g.edges,
        e'.src = mapEnd srcId tgtId e.src ∧
        e'.dst = mapEnd srcId tgtId e.dst ∧ e'.attrs = e.attrs) ∧
      (∀ e ∈ g.edges, touches srcId e →
        (∀ f ∈ g.edges, f ≠ e →
          ¬ (mapEnd srcId tgtId f.src = mapEnd srcId tgtId e.src ∧
             mapEnd srcId tgtId f.dst = mapEnd srcId tgtId e.dst)) →
        (⟨mapEnd srcId tgtId e.src, mapEnd srcId tgtId e.dst, e.attrs⟩ : Edge) ∈
          (mergeItems g srcId tgtId).1.edges) := by
  intro g A B hA hB hne huniq hwf
  have hBneA : B ≠ A := fun h => hne h.symm
  set G1 := transferIncoming g A B with hG1def
  set G2 := transferOutgoing G1 A B with hG2def
  have hi1 : G1.items = g.items := transferIncoming_items g A B
  have hg1e : G1.edges = g.edges.map (mergeIncomingStep g A B) :=
    transferIncoming_edges ⟨hA, hB⟩
  have hA1 : itemIn G1 A := (itemIn_of_items_eq hi1 A).mpr hA
  have hB1 : itemIn G1 B := (itemIn_of_items_eq hi1 B).mpr hB
  have hg2e : G2.edges = G1.edges.map (mergeOutgoingStep G1 A B) :=
    transferOutgoing_edges ⟨hA1, hB1⟩
  have hpostE : (mergeItems g A B).1.edges =
      G2.edges.filter fun e => e.src != A && e.dst != A := rfl
  have hpostI : (mergeItems g A B).1.items =
      G2.items.filter fun i => i.id != A := rfl
  have hmem1 : ∀ e ∈ g.edges, mergeIncomingStep g A B e ∈ G1.edges := by
    intro e he; rw [hg1e]; exact List.mem_map_of_mem _ he
  have hmem2 : ∀ e ∈ G1.edges, mergeOutgoingStep G1 A B e ∈ G2.edges := by
    intro e he; rw [hg2e]; exact List.mem_map_of_mem _ he
  have hstep1_id : ∀ e : Edge, e.dst ≠ A → mergeIncomingStep g A B e = e := by
    intro e h; unfold mergeIncomingStep; rw [if_neg fun hc => h hc.1]
  have hstep2_id : ∀ e : Edge, e.src ≠ A → mergeOutgoingStep G1 A B e = e := by
    intro e h; unfold mergeOutgoingStep; rw [if_neg fun hc => h hc.1]
  have hkeep : ∀ e ∈ G2.edges, e.src ≠ A → e.dst ≠ A →
      e ∈ (mergeItems g A B).1.edges := by
    intro e he h1 h2
    rw [hpostE, List.mem_filter]
    exact ⟨he, by simp [h1, h2]⟩
  have hH : ∀ w ∈ G1.edges, w.src ≠ A → w.dst ≠ A →
      w ∈ (mergeItems g A B).1.edges := by
    intro w hw h1 h2
    have hm := hmem2 w hw
    rw [hstep2_id w h1] at hm
    exact hkeep w hm h1 h2
  have hH0 : ∀ w ∈ g.edges, w.src ≠ A → w.dst ≠ A →
      w ∈ (mergeItems g A B).1.edges := by
    intro w hw h1 h2
    have hm := hmem1 w hw
    rw [hstep1_id w h2] at hm
    exact hH w hm h1 h2
  have hK : hasEdge G1.edges B B →
      ∃ w ∈ (mergeItems g A B).1.edges, w.src = B ∧ w.dst = B := by
    rintro ⟨w, hw, hws, hwd⟩
    exact ⟨w, hH w hw (fun hh => hBneA (hws.symm.trans hh))
      (fun hh => hBneA (hwd.symm.trans hh)), hws, hwd⟩
  have hmapA : mapEnd A B A = B := if_pos rfl
  have hmapNe : ∀ x, x ≠ A → mapEnd A B x = x := fun x h => if_neg h
  have hG1mem : ∀ w ∈ G1.edges, ∃ u ∈ g.edges, mergeIncomingStep g A B u = w := by
    intro w hw; rw [hg1e] at hw; exact List.mem_map.mp hw
  have hG2mem : ∀ w ∈ G2.edges, ∃ u ∈ G1.edges, mergeOutgoingStep G1 A B u = w := by
    intro w hw; rw [hg2e] at hw; exact List.mem_map.mp hw
  refine ⟨?_, ?_, ?_, ?_, ?_, ?_⟩
  · -- (1) the source item is gone
    rw [show getItemById (mergeItems g A B).1 A =
        ((mergeItems g A B).1.items.find? fun i => i.id == A) from rfl, hpostI]
    apply List.find?_eq_none.mpr
    intro i hi
    have h2 := (List.mem_filter.mp hi).2
    simpa using h2
  · -- (2) every edge touching A has its renamed pair in the result
    intro e he htch
    by_cases hdstA : e.dst = A
    · by_cases hXB : hasEdge g.edges e.src B
      · obtain ⟨b, hb, hbs, hbd⟩ := hXB
        by_cases hsrcA : e.src = A
        · have hb1 : b ∈ G1.edges := by
            have hm := hmem1 b hb
            rw [hstep1_id b (fun hh => hBneA (hbd.symm.trans hh))] at hm
            exact hm
          by_cases hBB : hasEdge G1.edges B B
          · obtain ⟨w, hw, hws, hwd⟩ := hK hBB
            exact ⟨w, hw, by rw [hws, hsrcA, hmapA],
              by rw [hwd, hdstA, hmapA]⟩
          · have hcond : b.src = A ∧ itemIn G1 b.dst ∧
                ¬ hasEdge G1.edges B b.dst :=
              ⟨hbs.trans hsrcA, by rw [hbd]; exact hB1, by rw [hbd]; exact hBB⟩
            have hstep : mergeOutgoingStep G1 A B b = { b with src := B } := by
              unfold mergeOutgoingStep; rw [if_pos hcond]
            have hm := hmem2 b hb1
            rw [hstep] at hm
            refine ⟨{ b with src := B }, hkeep _ hm hBneA
              (fun hh => hBneA (hbd.symm.trans hh)), ?_, ?_⟩
            · show B = mapEnd A B e.src; rw [hsrcA, hmapA]
            · show b.dst = mapEnd A B e.dst; rw [hbd, hdstA, hmapA]
        · have hbpost := hH0 b hb (fun hh => hsrcA (hbs.symm.trans hh))
            (fun hh => hBneA (hbd.symm.trans hh))
          exact ⟨b, hbpost, by rw [hbs, hmapNe _ hsrcA],
            by rw [hbd, hdstA, hmapA]⟩
      · have hcond1 : e.dst = A ∧ itemIn g e.src ∧ ¬ hasEdge g.edges e.src B :=
          ⟨hdstA, (hwf e he).1, hXB⟩
        have hstep : mergeIncomingStep g A B e = { e with dst := B } := by
          unfold mergeIncomingStep; rw [if_pos hcond1]
        have he1 : ({ e with dst := B } : Edge) ∈ G1.edges := by
          have hm := hmem1 e he; rw [hstep] at hm; exact hm
        by_cases hsrcA : e.src = A
        · by_cases hBB : hasEdge G1.edges B B
          · obtain ⟨w, hw, hws, hwd⟩ := hK hBB
            exact ⟨w, hw, by rw [hws, hsrcA, hmapA], by rw [hwd, hdstA, hmapA]⟩
          · have hcond2 : ({ e with dst := B } : Edge).src = A ∧
                itemIn G1 ({ e with dst := B } : Edge).dst ∧
                ¬ hasEdge G1.edges B ({ e with dst := B } : Edge).dst :=
              ⟨hsrcA, hB1, hBB⟩
            have hstep2 : mergeOutgoingStep G1 A B { e with dst := B } =
                { e with src := B, dst := B } := by
              unfold mergeOutgoingStep; rw [if_pos hcond2]
            have hm := hmem2 _ he1
            rw [hstep2] at hm
            refine ⟨_, hkeep _ hm hBneA hBneA, ?_, ?_⟩
            · show B = mapEnd A B e.src; rw [hsrcA, hmapA]
            · show B = mapEnd A B e.dst; rw [hdstA, hmapA]
        · have hm := hH _ he1 (show e.src ≠ A from hsrcA) (show B ≠ A from hBneA)
          refine ⟨_, hm, ?_, ?_⟩
          · show e.src = mapEnd A B e.src; rw [hmapNe _ hsrcA]
          · show B = mapEnd A B e.dst; rw [hdstA, hmapA]
    · have hsrcA : e.src = A := htch.resolve_right hdstA
      have he1 : e ∈ G1.edges := by
        have hm := hmem1 e he; rw [hstep1_id e hdstA] at hm; exact hm
      by_cases hBY : hasEdge G1.edges B e.dst
      · obtain ⟨w, hw, hws, hwd⟩ := hBY
        have hwp := hH w hw (fun hh => hBneA (hws.symm.trans hh))
          (fun hh => hdstA (hwd.symm.trans hh))
        exact ⟨w, hwp, by rw [hws, hsrcA, hmapA], by rw [hwd, hmapNe _ hdstA]⟩
      · have hcond : e.src = A ∧ itemIn G1 e.dst ∧ ¬ hasEdge G1.edges B e.dst :=
          ⟨hsrcA, (itemIn_of_items_eq hi1 e.dst).mpr (hwf e he).2, hBY⟩
        have hstep2 : mergeOutgoingStep G1 A B e = { e with src := B } := by
          unfold mergeOutgoingStep; rw [if_pos hcond]
        have hm := hmem2 e he1
        rw [hstep2] at hm
        refine ⟨_, hkeep _ hm hBneA hdstA, ?_, ?_⟩
        · show B = mapEnd A B e.src; rw [hsrcA, hmapA]
        · show e.dst = mapEnd A B e.dst; rw [hmapNe _ hdstA]
  · -- (3) uniqueness is preserved
    exact uniqueEdges_mergeItems huniq
  · -- (4) edges not touching A survive unchanged
    exact hH0
  · -- (5) nothing is invented
    intro e' he'
    rw [hpostE] at he'
    have hmf := List.mem_filter.mp he'
    have hsne : e'.src ≠ A ∧ e'.dst ≠ A := by
      have := hmf.2
      constructor <;> · intro hh; simp [hh] at this
    obtain ⟨w, hw, hfw⟩ := hG2mem e' hmf.1
    obtain ⟨u, hu, hfu⟩ := hG1mem w hw
    by_cases c1 : u.dst = A ∧ itemIn g u.src ∧ ¬ hasEdge g.edges u.src B
    · have hw_eq : w = { u with dst := B } := by
        rw [← hfu]; unfold mergeIncomingStep; rw [if_pos c1]
      by_cases c2 : w.src = A ∧ itemIn G1 w.dst ∧ ¬ hasEdge G1.edges B w.dst
      · have he'_eq : e' = { w with src := B } := by
          rw [← hfw]; unfold mergeOutgoingStep; rw [if_pos c2]
        refine ⟨u, hu, ?_, ?_, ?_⟩
        · rw [he'_eq]
          show B = mapEnd A B u.src
          have : u.src = A := by rw [hw_eq] at c2; exact c2.1
          rw [this, hmapA]
        · rw [he'_eq, hw_eq]
          show B = mapEnd A B u.dst
          rw [c1.1, hmapA]
        · rw [he'_eq, hw_eq]
      · have he'_eq : e' = w := by
          rw [← hfw]; unfold mergeOutgoingStep; rw [if_neg c2]
        refine ⟨u, hu, ?_, ?_, ?_⟩
        · rw [he'_eq, hw_eq]
          show u.src = mapEnd A B u.src
          have husrc : u.src ≠ A := by
            intro hh
            apply hsne.1
            rw [he'_eq, hw_eq]
            exact hh
          rw [hmapNe _ husrc]
        · rw [he'_eq, hw_eq]
          show B = mapEnd A B u.dst
          rw [c1.1, hmapA]
        · rw [he'_eq, hw_eq]
    · have hw_eq : w = u := by
        rw [← hfu]; unfold mergeIncomingStep; rw [if_neg c1]
      by_cases c2 : w.src = A ∧ itemIn G1 w.dst ∧ ¬ hasEdge G1.edges B w.dst
      · have he'_eq : e' = { w with src := B } := by
          rw [← hfw]; unfold mergeOutgoingStep; rw [if_pos c2]
        refine ⟨u, hu, ?_, ?_, ?_⟩
        · rw [he'_eq]
          show B = mapEnd A B u.src
          have : u.src = A := by rw [← hw_eq]; exact c2.1
          rw [this, hmapA]
        · rw [he'_eq, hw_eq]
          show u.dst = mapEnd A B u.dst
          have hudst : u.dst ≠ A := by
            intro hh
            apply hsne.2
            rw [he'_eq, hw_eq]
            exact hh
          rw [hmapNe _ hudst]
        · rw [he'_eq, hw_eq]
      · have he'_eq : e' = u := by
          rw [← hfw, hw_eq]; unfold mergeOutgoingStep
          rw [hw_eq] at c2
          rw [if_neg c2]
        refine ⟨u, hu, ?_, ?_, ?_⟩
        · rw [he'_eq]
          have husrc : u.src ≠ A := by rw [← he'_eq]; exact hsne.1
          rw [hmapNe _ husrc]
        · rw [he'_eq]
          have hudst : u.dst ≠ A := by rw [← he'_eq]; exact hsne.2
          rw [hmapNe _ hudst]
        · rw [he'_eq]
  · -- (6) collision-free edges are re-pointed with their attributes
    intro e he htch hnocol
    by_cases hdstA : e.dst = A
    · have hXB : ¬ hasEdge g.edges e.src B := by
        rintro ⟨b, hb, hbs, hbd⟩
        have hbne : b ≠ e := by
          intro hh
          rw [hh] at hbd
          exact hBneA (hbd.symm.trans hdstA)
        apply hnocol b hb hbne
        constructor
        · rw [hbs]
        · rw [hbd, hdstA, hmapA, hmapNe _ hBneA]
      have hstep : mergeIncomingStep g A B e = { e with dst := B } := by
        unfold mergeIncomingStep
        rw [if_pos ⟨hdstA, (hwf e he).1, hXB⟩]
      have he1 : ({ e with dst := B } : Edge) ∈ G1.edges := by
        have hm := hmem1 e he; rw [hstep] at hm; exact hm
      by_cases hsrcA : e.src = A
      · have hBB : ¬ hasEdge G1.edges B B := by
          rintro ⟨w, hw, hws, hwd⟩
          obtain ⟨u, hu, hfu⟩ := hG1mem w hw
          by_cases cu : u.dst = A ∧ itemIn g u.src ∧ ¬ hasEdge g.edges u.src B
          · have hw_eq : w = { u with dst := B } := by
              rw [← hfu]; unfold mergeIncomingStep; rw [if_pos cu]
            have husrc : u.src = B := by rw [hw_eq] at hws; exact hws
            have hune : u ≠ e := by
              intro hh
              rw [hh] at husrc
              exact hBneA (husrc.symm.trans hsrcA)
            apply hnocol u hu hune
            constructor
            · rw [husrc, hmapNe _ hBneA, hsrcA, hmapA]
            · rw [cu.1, hmapA, hdstA, hmapA]
          · have hw_eq : w = u := by
              rw [← hfu]; unfold mergeIncomingStep; rw [if_neg cu]
            have hus : u.src = B := by rw [← hw_eq]; exact hws
            have hud : u.dst = B := by rw [← hw_eq]; exact hwd
            have hune : u ≠ e := by
              intro hh
              rw [hh] at hud
              exact hBneA (hud.symm.trans hdstA)
            apply hnocol u hu hune
            constructor
            · rw [hus, hmapNe _ hBneA, hsrcA, hmapA]
            · rw [hud, hmapNe _ hBneA, hdstA, hmapA]
        have hstep2 : mergeOutgoingStep G1 A B { e with dst := B } =
            { e with src := B, dst := B } := by
          unfold mergeOutgoingStep
          rw [if_pos ⟨hsrcA, hB1, hBB⟩]
        have hm := hmem2 _ he1
        rw [hstep2] at hm
        have hgoal := hkeep _ hm hBneA hBneA
        have : (⟨mapEnd A B e.src, mapEnd A B e.dst, e.attrs⟩ : Edge) =
            { e with src := B, dst := B } := by
          rw [hsrcA, hdstA, hmapA]
        rw [this]
        exact hgoal
      · have hm := hH _ he1 (show e.src ≠ A from hsrcA) (show B ≠ A from hBneA)
        have : (⟨mapEnd A B e.src, mapEnd A B e.dst, e.attrs⟩ : Edge) =
            { e with dst := B } := by
          rw [hdstA, hmapA, hmapNe _ hsrcA]
        rw [this]
        exact hm
    · have hsrcA : e.src = A := htch.resolve_right hdstA
      have he1 : e ∈ G1.edges := by
        have hm := hmem1 e he; rw [hstep1_id e hdstA] at hm; exact hm
      have hBY : ¬ hasEdge G1.edges B e.dst := by
        rintro ⟨w, hw, hws, hwd⟩
        obtain ⟨u, hu, hfu⟩ := hG1mem w hw
        by_cases cu : u.dst = A ∧ itemIn g u.src ∧ ¬ hasEdge g.edges u.src B
        · have hw_eq : w = { u with dst := B } := by
            rw [← hfu]; unfold mergeIncomingStep; rw [if_pos cu]
          have husrc : u.src = B := by rw [hw_eq] at hws; exact hws
          have hedB : e.dst = B := by
            rw [hw_eq] at hwd
            exact hwd.symm
          have hune : u ≠ e := by
            intro hh
            rw [hh] at husrc
            exact hBneA (husrc.symm.trans hsrcA)
          apply hnocol u hu hune
          constructor
          · rw [husrc, hmapNe _ hBneA, hsrcA, hmapA]
          · rw [cu.1, hmapA, hedB, hmapNe _ hBneA]
        · have hw_eq : w = u := by
            rw [← hfu]; unfold mergeIncomingStep; rw [if_neg cu]
          have hus : u.src = B := by rw [← hw_eq]; exact hws
          have hud : u.dst = e.dst := by rw [← hw_eq]; exact hwd
          have hune : u ≠ e := by
            intro hh
            rw [hh] at hus
            exact hBneA (hus.symm.trans hsrcA)
          apply hnocol u hu hune
          constructor
          · rw [hus, hmapNe _ hBneA, hsrcA, hmapA]
          · rw [hud]
      have hstep2 : mergeOutgoingStep G1 A B e = { e with src := B } := by
        unfold mergeOutgoingStep
        rw [if_pos ⟨hsrcA, (itemIn_of_items_eq hi1 e.dst).mpr (hwf e he).2, hBY⟩]
      have hm := hmem2 e he1
      rw [hstep2] at hm
      have hgoal := hkeep _ hm hBneA hdstA
      have : (⟨mapEnd A B e.src, mapEnd A B e.dst, e.attrs⟩ : Edge) =
          { e with src := B } := by
        rw [hsrcA, hmapA, hmapNe _ hdstA]
      rw [this]
      exact hgoal

/-- Witness for C1 on the concrete store (`x → a`, `a → y`, pre-existing
`x → b`). -/
theorem merge_items_transfers_edges_witness :
    getItemById (mergeItems gMergeW "a" "b").1 "a" = none ∧
    (∃ e' ∈ (mergeItems gMergeW "a" "b").1.edges,
      e'.src = mapEnd "a" "b" "a" ∧ e'.dst = mapEnd "a" "b" "y") ∧
    UniqueEdges (mergeItems gMergeW "a" "b").1.edges ∧
    (⟨"x", "b", sampleAttrs 70⟩ : Edge) ∈ (mergeItems gMergeW "a" "b").1.edges := by
  have h := merge_items_transfers_edges gMergeW "a" "b" (by decide) (by decide)
    (by decide) (by decide) (by decide)
  refine ⟨h.1, ?_, h.2.2.1, ?_⟩
  · exact h.2.1 ⟨"a", "y", sampleAttrs 80⟩ (by decide) (Or.inl rfl)
  · exact h.2.2.2.1 ⟨"x", "b", sampleAttrs 70⟩ (by decide) (by decide) (by decide)

/-! ## C8: idempotence of `add_influences_to_existing` -/

theorem stepMono_refl (g : Graph) : StepMono g g :=
  ⟨fun _ _ h => h, fun _ _ h => h, fun _ h => h, fun _ h => h, fun _ h => h⟩

theorem stepMono_trans {g1 g2 g3 : Graph} (h1 : StepMono g1 g2)
    (h2 : StepMono g2 g3) : StepMono g1 g3 :=
  ⟨fun x it h => h2.1 x it (h1.1 x it h),
   fun a b h => h2.2.1 a b (h1.2.1 a b h),
   fun l h => h2.2.2.1 l (h1.2.2.1 l h),
   fun x h => h2.2.2.2.1 x (h1.2.2.2.1 x h),
   fun x h => h2.2.2.2.2 x (h1.2.2.2.2 x h)⟩

theorem stepMono_createItem (g : Graph) (n : String) (d : Option String)
    (y : Option Int) (t : Option String) (c : Option Frac) :
    StepMono g (createItem g n d y t c).1 := by
  refine ⟨?_, ?_, ?_, ?_, ?_⟩
  · intro x it h
    exact find?_append_left h
  · intro a b h; exact h
  · intro l h; exact h
  · intro x h; exact h
  · rintro x ⟨i, hi, hx⟩
    exact ⟨i, List.mem_append_left _ hi, hx⟩

theorem createCreator_items (g : Graph) (n t : String) :
    (createCreator g n t).1.items = g.items := by
  unfold createCreator; split <;> rfl

theorem createCreator_edges (g : Graph) (n t : String) :
    (createCreator g n t).1.edges = g.edges := by
  unfold createCreator; split <;> rfl

theorem createCreator_createdBy (g : Graph) (n t : String) :
    (createCreator g n t).1.createdBy = g.createdBy := by
  unfold createCreator; split <;> rfl

theorem stepMono_createCreator (g : Graph) (n t : String) :
    StepMono g (createCreator g n t).1 := by
  refine ⟨?_, ?_, ?_, ?_, ?_⟩
  · intro x it h
    show ((createCreator g n t).1.items.find? fun i => i.id == x) = some it
    rw [createCreator_items]; exact h
  · intro a b h; rw [createCreator_edges]; exact h
  · intro l h; rw [createCreator_createdBy]; exact h
  · rintro x ⟨c0, hc, hx⟩
    unfold createCreator
    split
    · exact ⟨c0, hc, hx⟩
    · exact ⟨c0, List.mem_append_left _ hc, hx⟩
  · rintro x hx
    show itemIn { (createCreator g n t).1 with
      items := (createCreator g n t).1.items } x
    rw [createCreator_items]
    exact hx

theorem linkCreator_items (g : Graph) (i c r : String) :
    (linkCreatorToItem g i c r).items = g.items := by
  unfold linkCreatorToItem
  split
  · dsimp only; split <;> rfl
  · rfl

theorem linkCreator_edges (g : Graph) (i c r : String) :
    (linkCreatorToItem g i c r).edges = g.edges := by
  unfold linkCreatorToItem
  split
  · dsimp only; split <;> rfl
  · rfl

theorem linkCreator_creators (g : Graph) (i c r : String) :
    (linkCreatorToItem g i c r).creators = g.creators := by
  unfold linkCreatorToItem
  split
  · dsimp only; split <;> rfl
  · rfl

theorem stepMono_linkCreator (g : Graph) (i c r : String) :
    StepMono g (linkCreatorToItem g i c r) := by
  refine ⟨?_, ?_, ?_, ?_, ?_⟩
  · intro x it h
    show ((linkCreatorToItem g i c r).items.find? fun j => j.id == x) = some it
    rw [linkCreator_items]; exact h
  · intro a b h; rw [linkCreator_edges]; exact h
  · intro l h
    unfold linkCreatorToItem
    split
    · dsimp only
      split
      · exact h
      · exact List.mem_append_left _ h
    · exact h
  · rintro x ⟨c0, hc, hx⟩
    refine ⟨c0, ?_, hx⟩
    rw [linkCreator_creators]; exact hc
  · rintro x ⟨i0, hi, hx⟩
    refine ⟨i0, ?_, hx⟩
    rw [linkCreator_items]; exact hi

theorem ensureCategory_items (g : Graph) (n : String) :
    (ensureCategoryExists g n).items = g.items := by
  unfold ensureCategoryExists; split <;> rfl

theorem ensureCategory_edges (g : Graph) (n : String) :
    (ensureCategoryExists g n).edges = g.edges := by
  unfold ensureCategoryExists; split <;> rfl

theorem ensureCategory_creators (g : Graph) (n : String) :
    (ensureCategoryExists g n).creators = g.creators := by
  unfold ensureCategoryExists; split <;> rfl

theorem ensureCategory_createdBy (g : Graph) (n : String) :
    (ensureCategoryExists g n).createdBy = g.createdBy := by
  unfold ensureCategoryExists; split <;> rfl

theorem stepMono_ensureCategory (g : Graph) (n : String) :
    StepMono g (ensureCategoryExists g n) := by
  refine ⟨?_, ?_, ?_, ?_, ?_⟩
  · intro x it h
    show ((ensureCategoryExists g n).items.find? fun j => j.id == x) = some it
    rw [ensureCategory_items]; exact h
  · intro a b h; rw [ensureCategory_edges]; exact h
  · intro l h; rw [ensureCategory_createdBy]; exact h
  · rintro x ⟨c0, hc, hx⟩
    refine ⟨c0, ?_, hx⟩
    rw [ensureCategory_creators]; exact hc
  · rintro x ⟨i0, hi, hx⟩
    refine ⟨i0, ?_, hx⟩
    rw [ensureCategory_items]; exact hi

theorem createInfluence_items (g : Graph) (a b : String) (at_ : InfluenceAttrs) :
    (createInfluenceRelationship g a b at_).items = g.items := by
  unfold createInfluenceRelationship
  split
  · split <;> rfl
  · rfl

theorem createInfluence_creators (g : Graph) (a b : String)
    (at_ : InfluenceAttrs) :
    (createInfluenceRelationship g a b at_).creators = g.creators := by
  unfold createInfluenceRelationship
  split
  · split <;> rfl
  · rfl

theorem createInfluence_createdBy (g : Graph) (a b : String)
    (at_ : InfluenceAttrs) :
    (createInfluenceRelationship g a b at_).createdBy = g.createdBy := by
  unfold createInfluenceRelationship
  split
  · split <;> rfl
  · rfl

theorem hasEdge_mono_createInfluence {g : Graph} {a b x y : String}
    {at_ : InfluenceAttrs} (h : hasEdge g.edges a b) :
    hasEdge (createInfluenceRelationship g x y at_).edges a b := by
  obtain ⟨e, he, hs, hd⟩ := h
  unfold createInfluenceRelationship
  by_cases h1 : itemIn g x ∧ itemIn g y
  · rw [if_pos h1]
    by_cases h2 : hasEdge g.edges x y
    · rw [if_pos h2]
      refine ⟨(fun e0 => if e0.src = x ∧ e0.dst = y then { e0 with attrs := at_ }
        else e0) e, List.mem_map_of_mem _ he, ?_⟩
      dsimp only
      split
      · exact ⟨hs, hd⟩
      · exact ⟨hs, hd⟩
    · rw [if_neg h2]
      exact ⟨e, List.mem_append_left _ he, hs, hd⟩
  · rw [if_neg h1]
    exact ⟨e, he, hs, hd⟩

theorem stepMono_createInfluence (g : Graph) (a b : String)
    (at_ : InfluenceAttrs) :
    StepMono g (createInfluenceRelationship g a b at_) := by
  refine ⟨?_, ?_, ?_, ?_, ?_⟩
  · intro x it h
    show ((createInfluenceRelationship g a b at_).items.find?
      fun j => j.id == x) = some it
    rw [createInfluence_items]; exact h
  · intro u v h
    exact hasEdge_mono_createInfluence h
  · intro l h; rw [createInfluence_createdBy]; exact h
  · rintro x ⟨c0, hc, hx⟩
    refine ⟨c0, ?_, hx⟩
    rw [createInfluence_creators]; exact hc
  · rintro x ⟨i0, hi, hx⟩
    refine ⟨i0, ?_, hx⟩
    rw [createInfluence_items]; exact hi

theorem hasEdge_createInfluence {g : Graph} {a b : String}
    {at_ : InfluenceAttrs} (ha : itemIn g a) (hb : itemIn g b) :
    hasEdge (createInfluenceRelationship g a b at_).edges a b := by
  unfold createInfluenceRelationship
  rw [if_pos ⟨ha, hb⟩]
  by_cases he : hasEdge g.edges a b
  · rw [if_pos he]
    obtain ⟨e, hmem, hs, hd⟩ := he
    refine ⟨(fun e0 => if e0.src = a ∧ e0.dst = b then { e0 with attrs := at_ }
      else e0) e, List.mem_map_of_mem _ hmem, ?_⟩
    dsimp only
    split
    · exact ⟨hs, hd⟩
    · exact ⟨hs, hd⟩
  · rw [if_neg he]
    exact ⟨⟨a, b, at_⟩, List.mem_append_right _ (List.mem_singleton_self _),
      rfl, rfl⟩

theorem mem_incomingNames_of {g : Graph} {id x : String} {it : Item}
    (hid : itemIn g id) (he : hasEdge g.edges x id)
    (hit : getItemById g x = some it) :
    strLower it.name ∈ incomingInfluenceNamesLower g id := by
  obtain ⟨e, hmem, hs, hd⟩ := he
  unfold incomingInfluenceNamesLower
  rw [if_pos hid]
  rw [List.mem_filterMap]
  refine ⟨e, hmem, ?_⟩
  rw [if_pos hd, hs, hit]
  rfl

theorem incomingNames_mono {gA gB : Graph} {id n : String}
    (hm : StepMono gA gB) (h : n ∈ incomingInfluenceNamesLower gA id) :
    n ∈ incomingInfluenceNamesLower gB id := by
  unfold incomingInfluenceNamesLower at h
  by_cases hid : itemIn gA id
  · rw [if_pos hid] at h
    rw [List.mem_filterMap] at h
    obtain ⟨e, hmem, hfe⟩ := h
    by_cases hd : e.dst = id
    · rw [if_pos hd] at hfe
      rcases hit : getItemById gA e.src with _ | it
      · rw [hit] at hfe; exact absurd hfe (by simp)
      · rw [hit] at hfe
        have hn : n = strLower it.name := by
          obtain ⟨a, ha1, ha2⟩ := Option.map_eq_some'.mp hfe
          have hae : it = a := by injection ha1
          rw [← ha2, ← hae]
        have hedge : hasEdge gB.edges e.src id :=
          hm.2.1 e.src id ⟨e, hmem, rfl, hd⟩
        have hit2 : getItemById gB e.src = some it := hm.1 e.src it hit
        rw [hn]
        exact mem_incomingNames_of (hm.2.2.2.2 id hid) hedge hit2
    · rw [if_neg hd] at hfe
      exact absurd hfe (by simp)
  · rw [if_neg hid] at h
    exact absurd h (List.not_mem_nil n)

theorem createCreator_creatorIn (g : Graph) (n t : String) :
    creatorIn (createCreator g n t).1 (createCreator g n t).2.id := by
  unfold createCreator
  rcases hf : g.creators.find? (fun c => c.name == n) with _ | c0
  · simp only [hf]
    exact ⟨_, List.mem_append_right _ (List.mem_singleton_self _), rfl⟩
  · simp only [hf]
    exact ⟨c0, List.mem_of_find?_eq_some hf, rfl⟩

theorem linkCreator_mem {g : Graph} {i c r : String} (hi : itemIn g i)
    (hc : creatorIn g c) :
    (⟨i, c, r⟩ : CreatedByLink) ∈ (linkCreatorToItem g i c r).createdBy := by
  unfold linkCreatorToItem
  rw [if_pos ⟨hi, hc⟩]
  dsimp only
  by_cases hm : (⟨i, c, r⟩ : CreatedByLink) ∈ g.createdBy
  · rw [if_pos hm]; exact hm
  · rw [if_neg hm]
    exact List.mem_append_right _ (List.mem_singleton_self _)

theorem processInfluenceCreator_items (g : Graph) (nid : String)
    (inf : StructuredInfluence) :
    (processInfluenceCreator g nid inf).items = g.items := by
  unfold processInfluenceCreator
  rcases inf.creator_name with _ | cn0
  · rfl
  · dsimp only
    by_cases h1 : cn0 ≠ ""
    · rw [if_pos h1]
      by_cases h2 : pyStrip cn0 ≠ "" ∧
          strLower (pyStrip cn0) ∉ (["none", "null"] : List String)
      · rw [if_pos h2]
        rw [linkCreator_items, createCreator_items]
      · rw [if_neg h2]
    · rw [if_neg h1]

theorem processInfluenceCreator_edges (g : Graph) (nid : String)
    (inf : StructuredInfluence) :
    (processInfluenceCreator g nid inf).edges = g.edges := by
  unfold processInfluenceCreator
  rcases inf.creator_name with _ | cn0
  · rfl
  · dsimp only
    by_cases h1 : cn0 ≠ ""
    · rw [if_pos h1]
      by_cases h2 : pyStrip cn0 ≠ "" ∧
          strLower (pyStrip cn0) ∉ (["none", "null"] : List String)
      · rw [if_pos h2]
        rw [linkCreator_edges, createCreator_edges]
      · rw [if_neg h2]
    · rw [if_neg h1]

theorem stepMono_processInfluenceCreator (g : Graph) (nid : String)
    (inf : StructuredInfluence) :
    StepMono g (processInfluenceCreator g nid inf) := by
  unfold processInfluenceCreator
  rcases inf.creator_name with _ | cn0
  · exact stepMono_refl g
  · dsimp only
    by_cases h1 : cn0 ≠ ""
    · rw [if_pos h1]
      by_cases h2 : pyStrip cn0 ≠ "" ∧
          strLower (pyStrip cn0) ∉ (["none", "null"] : List String)
      · rw [if_pos h2]
        exact stepMono_trans (stepMono_createCreator g (pyStrip cn0)
          (defaultPersonType inf.creator_type)) (stepMono_linkCreator _ nid _ _)
      · rw [if_neg h2]
        exact stepMono_refl g
    · rw [if_neg h1]
      exact stepMono_refl g

theorem stepMono_processInfluence (g : Graph) (it : Item)
    (inf : StructuredInfluence) : StepMono g (processInfluence g it inf) := by
  simp only [processInfluence]
  by_cases h1 : pyStrip inf.name = "" ∨
      strLower (pyStrip inf.name) ∈ (["none", "null"] : List String)
  · rw [if_pos h1]; exact stepMono_refl g
  · rw [if_neg h1]
    by_cases h2 : strLower (pyStrip inf.name) ∈
        incomingInfluenceNamesLower g it.id
    · rw [if_pos h2]; exact stepMono_refl g
    · rw [if_neg h2]
      exact stepMono_trans
        (stepMono_createItem g (pyStrip inf.name) _ inf.year inf.type
          (some inf.confidence))
        (stepMono_trans (stepMono_processInfluenceCreator _ _ inf)
          (stepMono_trans (stepMono_createInfluence _ _ _ _)
            (stepMono_ensureCategory _ _)))

theorem processInfluence_adds_name {g : Graph} {it : Item}
    {inf : StructuredInfluence}
    (hval : ¬ (pyStrip inf.name = "" ∨
      strLower (pyStrip inf.name) ∈ (["none", "null"] : List String)))
    (hin : itemIn g it.id) :
    strLower (pyStrip inf.name) ∈
      incomingInfluenceNamesLower (processInfluence g it inf) it.id := by
  simp only [processInfluence]
  rw [if_neg hval]
  by_cases h2 : strLower (pyStrip inf.name) ∈
      incomingInfluenceNamesLower g it.id
  · rw [if_pos h2]; exact h2
  · rw [if_neg h2]
    set created := createItem g (pyStrip inf.name)
      (some ("Influence on " ++ it.name ++ " (merged)")) inf.year inf.type
      (some inf.confidence) with hcreated
    set G2 := processInfluenceCreator created.1 created.2.id inf with hG2
    have hG1items : created.1.items = g.items ++ [created.2] := rfl
    have hG2items : G2.items = g.items ++ [created.2] := by
      rw [hG2, processInfluenceCreator_items, hG1items]
    have hnew2 : itemIn G2 created.2.id :=
      ⟨created.2, by
        rw [hG2items]
        exact List.mem_append_right _ (List.mem_singleton_self _), rfl⟩
    have hit2 : itemIn G2 it.id := by
      obtain ⟨i0, hi0, hx⟩ := hin
      exact ⟨i0, by rw [hG2items]; exact List.mem_append_left _ hi0, hx⟩
    have hedge3 : hasEdge (createInfluenceRelationship G2 created.2.id it.id
        { confidence := inf.confidence
          influence_type := inf.influence_type
          explanation :=
            if inf.explanation = "" then "No explanation provided"
            else pyStrip inf.explanation
          category :=
            if inf.category = "" then "Uncategorized"
            else pyStrip inf.category
          scope := "macro"
          source := inf.source
          year_of_influence := inf.year
          clusters := inf.clusters }).edges created.2.id it.id :=
      hasEdge_createInfluence hnew2 hit2
    set G3 := createInfluenceRelationship G2 created.2.id it.id _ with hG3
    set G4 := ensureCategoryExists G3
      (if inf.category = "" then "Uncategorized" else pyStrip inf.category)
      with hG4
    have hedge4 : hasEdge G4.edges created.2.id it.id := by
      rw [hG4, ensureCategory_edges]
      exact hedge3
    have hG4items : G4.items = g.items ++ [created.2] := by
      rw [hG4, ensureCategory_items, hG3, createInfluence_items, hG2items]
    have hfind4 : getItemById G4 created.2.id = some created.2 := by
      show (G4.items.find? fun i => i.id == created.2.id) = some created.2
      rw [hG4items]
      apply find?_id_of_fresh
      intro i hi
      exact generateId_fresh_item hi (pyStrip inf.name) inf.type
    have hit4 : itemIn G4 it.id := by
      obtain ⟨i0, hi0, hx⟩ := hin
      exact ⟨i0, by rw [hG4items]; exact List.mem_append_left _ hi0, hx⟩
    have hmem := mem_incomingNames_of hit4 hedge4 hfind4
    exact hmem

theorem processLoop_mono (it : Item) :
    ∀ (l : List StructuredInfluence) (g0 : Graph),
      StepMono g0 (l.foldl (fun gacc inf => processInfluence gacc it inf) g0) := by
  intro l
  induction l with
  | nil => intro g0; exact stepMono_refl g0
  | cons inf t ih =>
    intro g0
    rw [List.foldl_cons]
    exact stepMono_trans (stepMono_processInfluence g0 it inf) (ih _)

theorem processLoop_names (it : Item) :
    ∀ (l : List StructuredInfluence) (g0 : Graph),
      itemIn g0 it.id →
      ∀ inf ∈ l,
        ¬ (pyStrip inf.name = "" ∨
          strLower (pyStrip inf.name) ∈ (["none", "null"] : List String)) →
        strLower (pyStrip inf.name) ∈
          incomingInfluenceNamesLower
            (l.foldl (fun gacc i => processInfluence gacc it i) g0) it.id := by
  intro l
  induction l with
  | nil =>
    intro g0 _ inf hm
    exact absurd hm (List.not_mem_nil inf)
  | cons inf0 t ih =>
    intro g0 hin inf hm hval
    rw [List.foldl_cons]
    rcases List.mem_cons.mp hm with rfl | hmt
    · exact incomingNames_mono (processLoop_mono it t _)
        (processInfluence_adds_name hval hin)
    · exact ih _ ((stepMono_processInfluence g0 it inf0).2.2.2.2 it.id hin)
        inf hmt hval

theorem processLoop_id (it : Item) :
    ∀ (l : List StructuredInfluence) (gX : Graph),
      (∀ inf ∈ l,
        ¬ (pyStrip inf.name = "" ∨
          strLower (pyStrip inf.name) ∈ (["none", "null"] : List String)) →
        strLower (pyStrip inf.name) ∈ incomingInfluenceNamesLower gX it.id) →
      l.foldl (fun gacc i => processInfluence gacc it i) gX = gX := by
  intro l
  induction l with
  | nil => intro gX _; rfl
  | cons inf0 t ih =>
    intro gX hall
    rw [List.foldl_cons]
    have hstep : processInfluence gX it inf0 = gX := by
      simp only [processInfluence]
      by_cases h1 : pyStrip inf0.name = "" ∨
          strLower (pyStrip inf0.name) ∈ (["none", "null"] : List String)
      · rw [if_pos h1]
      · rw [if_neg h1,
          if_pos (hall inf0 (List.mem_cons_self inf0 t) h1)]
    rw [hstep]
    exact ih gX fun inf hm hv => hall inf (List.mem_cons_of_mem _ hm) hv

theorem creatorCount_pos_of {g : Graph} {id : String} (hin : itemIn g id)
    (h : ∃ l ∈ g.createdBy, l.itemId = id ∧ creatorIn g l.creatorId) :
    0 < creatorCount g id := by
  unfold creatorCount
  rw [if_pos hin]
  rw [List.countP_pos_iff]
  obtain ⟨l, hl, hp⟩ := h
  exact ⟨l, hl, by simpa using hp⟩

theorem creatorCount_pos_mono {gA gB : Graph} {id : String}
    (hm : StepMono gA gB) (h : 0 < creatorCount gA id) :
    0 < creatorCount gB id := by
  unfold creatorCount at h
  by_cases hin : itemIn gA id
  · rw [if_pos hin] at h
    obtain ⟨l, hl, hp⟩ := List.countP_pos_iff.mp h
    have hp2 : l.itemId = id ∧ creatorIn gA l.creatorId := by simpa using hp
    exact creatorCount_pos_of (hm.2.2.2.2 id hin)
      ⟨l, hm.2.2.1 l hl, hp2.1, hm.2.2.2.1 l.creatorId hp2.2⟩
  · rw [if_neg hin] at h
    exact absurd h (by simp)

theorem stepMono_backfill (g : Graph) (eid : String) (d : StructuredOutput) :
    StepMono g (backfillCreator g eid d) := by
  unfold backfillCreator
  rcases d.main_item_creator with _ | mc
  · exact stepMono_refl g
  · dsimp only
    by_cases h1 : mc ≠ ""
    · rw [if_pos h1]
      by_cases h0 : creatorCount g eid = 0
      · rw [if_pos h0]
        exact stepMono_trans
          (stepMono_createCreator g mc (defaultPersonType d.main_item_creator_type))
          (stepMono_linkCreator _ eid _ _)
      · rw [if_neg h0]
        exact stepMono_refl g
    · rw [if_neg h1]
      exact stepMono_refl g

theorem backfill_creatorCount {g : Graph} {eid : String} {d : StructuredOutput}
    (hin : itemIn g eid) (hc : optTruthy d.main_item_creator) :
    0 < creatorCount (backfillCreator g eid d) eid := by
  obtain ⟨mc, hmc, hne⟩ := hc
  unfold backfillCreator
  rw [hmc]
  dsimp only
  rw [if_pos hne]
  by_cases h0 : creatorCount g eid = 0
  · rw [if_pos h0]
    set cc := createCreator g mc (defaultPersonType d.main_item_creator_type)
      with hcc
    have hi1 : itemIn cc.1 eid := by
      obtain ⟨i0, hi0, hx⟩ := hin
      exact ⟨i0, by rw [hcc, createCreator_items]; exact hi0, hx⟩
    have hc1 : creatorIn cc.1 cc.2.id := createCreator_creatorIn g mc _
    have hlink := linkCreator_mem (r := "primary_creator") hi1 hc1
    apply creatorCount_pos_of
    · obtain ⟨i0, hi0, hx⟩ := hi1
      exact ⟨i0, by rw [linkCreator_items]; exact hi0, hx⟩
    · refine ⟨⟨eid, cc.2.id, "primary_creator"⟩, hlink, rfl, ?_⟩
      obtain ⟨c0, hc0, hcx⟩ := hc1
      exact ⟨c0, by rw [linkCreator_creators]; exact hc0, hcx⟩
  · rw [if_neg h0]
    exact Nat.pos_of_ne_zero h0

/-- C8: `add_influences_to_existing` is idempotent — when a first call on an
existing item succeeds with result store `g1`, a second call with the same
payload returns `g1` unchanged (the same item set, edge set, creator links
and categories): every valid candidate's lowercased name is among the
item's incoming influence names after the first call, so the second call's
in-process duplicate check skips every candidate, and the creator backfill
finds a linked creator already present. -/
theorem add_influences_idempotent :
    ∀ (g : Graph) (existingItemId : String) (d : StructuredOutput)
      (g1 : Graph) (rid : String),
      addInfluencesToExisting g existingItemId d = .ok (g1, rid) →
      addInfluencesToExisting g1 existingItemId d = .ok (g1, rid) := by
  intro g eid d g1 rid hcall
  unfold addInfluencesToExisting at hcall
  rcases hf : getItemById g eid with _ | it0
  · rw [hf] at hcall
    exact absurd hcall (by simp)
  · rw [hf] at hcall
    have hcall2 : Except.ok (α := Graph × String) (ε := String)
        (d.influences.foldl (fun gacc inf => processInfluence gacc it0 inf)
          (backfillCreator g eid d), eid) = .ok (g1, rid) := hcall
    have hpair := Except.ok.inj hcall2
    have hg1 : d.influences.foldl (fun gacc inf => processInfluence gacc it0 inf)
        (backfillCreator g eid d) = g1 := congrArg Prod.fst hpair
    have hrid : eid = rid := congrArg Prod.snd hpair
    have hitid : it0.id = eid := by simpa using List.find?_some hf
    have hinG : itemIn g eid := ⟨it0, List.mem_of_find?_eq_some hf, hitid⟩
    have hmono_bf : StepMono g (backfillCreator g eid d) :=
      stepMono_backfill g eid d
    have hmono_loop : StepMono (backfillCreator g eid d) g1 := by
      rw [← hg1]
      exact processLoop_mono it0 d.influences _
    have hmono : StepMono g g1 := stepMono_trans hmono_bf hmono_loop
    have hf1 : getItemById g1 eid = some it0 := hmono.1 eid it0 hf
    unfold addInfluencesToExisting
    rw [hf1]
    show Except.ok
      (d.influences.foldl (fun gacc inf => processInfluence gacc it0 inf)
        (backfillCreator g1 eid d), eid) = .ok (g1, rid)
    have hbf2 : backfillCreator g1 eid d = g1 := by
      unfold backfillCreator
      rcases hmc : d.main_item_creator with _ | mc
      · rfl
      · dsimp only
        by_cases hne : mc ≠ ""
        · rw [if_pos hne]
          have hpos : 0 < creatorCount g1 eid := by
            apply creatorCount_pos_mono hmono_loop
            exact backfill_creatorCount hinG ⟨mc, hmc, hne⟩
          rw [if_neg (Nat.pos_iff_ne_zero.mp hpos)]
        · rw [if_neg hne]
    rw [hbf2]
    have hloop2 : d.influences.foldl
        (fun gacc inf => processInfluence gacc it0 inf) g1 = g1 := by
      apply processLoop_id
      intro inf hm hv
      have hinBF : itemIn (backfillCreator g eid d) it0.id := by
        rw [hitid]
        exact hmono_bf.2.2.2.2 eid hinG
      have hnm := processLoop_names it0 d.influences (backfillCreator g eid d)
        hinBF inf hm hv
      rw [hg1] at hnm
      exact hnm
    rw [hloop2, hrid]

/-- Witness for C8 on the concrete store: adding "Thank You" to "Stan"
twice yields the same store as adding it once. -/
theorem add_influences_idempotent_witness :
    addInfluencesToExisting gStan1 "stan-1" payloadStan =
      .ok (gStan1, "stan-1") :=
  add_influences_idempotent gStan "stan-1" payloadStan gStan1 "stan-1"
    (by decide)
